import Mathlib

/-!
# Verification of the PII detection and redaction engine

This file gives a shallow embedding, in Lean, of `detector_virtualISP.py`:
the pattern matchers (Python regexes, modelled as explicit backtracking-free
scanners over `List Char` whose behaviour coincides with the CPython `re`
semantics on these particular patterns), the maskers, the per-field
classifiers and the two-pass `detect_and_redact` orchestrator.

Character classes (`\d`, `\w`, `\s`) are modelled by their ASCII meaning;
the Python module compiles the patterns on `str` with Unicode classes, but
no property below depends on non-ASCII class members, and every function is
total over arbitrary Unicode strings exactly as the Python code is.
-/

namespace PiiDetector

/-! ## Character classes (ASCII model of the regex classes) -/

def isDig (c : Char) : Bool := 48 ≤ c.toNat && c.toNat ≤ 57

def isUpperCh (c : Char) : Bool := 65 ≤ c.toNat && c.toNat ≤ 90

def isLowerCh (c : Char) : Bool := 97 ≤ c.toNat && c.toNat ≤ 122

def isAlphaCh (c : Char) : Bool := isUpperCh c || isLowerCh c

def isAlnumCh (c : Char) : Bool := isAlphaCh c || isDig c

def isWordCh (c : Char) : Bool := isAlnumCh c || c = '_'

def isSpaceCh (c : Char) : Bool :=
  c = ' ' || c = '\t' || c = '\n' || c = '\r' || c = '\x0b' || c = '\x0c'

/-- The separator class `[-\s]` used in the phone pattern. -/
def isSepCh (c : Char) : Bool := c = '-' || isSpaceCh c

/-- `[6-9]`, the leading digit of an Indian mobile number. -/
def isPh (c : Char) : Bool := 54 ≤ c.toNat && c.toNat ≤ 57

/-- The passport letter class `[A-PR-WYa-pr-wy]` (excludes Q, X, Z). -/
def isPassLetter (c : Char) : Bool :=
  (65 ≤ c.toNat && c.toNat ≤ 80) || (82 ≤ c.toNat && c.toNat ≤ 87) || c = 'Y' ||
  (97 ≤ c.toNat && c.toNat ≤ 112) || (114 ≤ c.toNat && c.toNat ≤ 119) || c = 'y'

/-- The UPI handle class `[a-zA-Z0-9.\-_]`. -/
def isUpiName (c : Char) : Bool := isAlnumCh c || c = '.' || c = '-' || c = '_'

/-- The email local-part class `[a-zA-Z0-9._%+\-]`. -/
def isEmailLocal (c : Char) : Bool :=
  isAlnumCh c || c = '.' || c = '_' || c = '%' || c = '+' || c = '-'

/-- The email domain class `[A-Za-z0-9.\-]`. -/
def isDomACh (c : Char) : Bool := isAlnumCh c || c = '.' || c = '-'

/-- The `[ ,]` separator of the two-token name pattern. -/
def nameSepCh (c : Char) : Bool := c = ' ' || c = ','

def asciiLowerChar (c : Char) : Char :=
  if isUpperCh c then Char.ofNat (c.toNat + 32) else c

def asciiUpperChar (c : Char) : Char :=
  if isLowerCh c then Char.ofNat (c.toNat - 32) else c

/-- `str.lower()` on the ASCII letters, as used for field keys. -/
def asciiLower (s : String) : String := String.mk (s.data.map asciiLowerChar)

/-! ## Lookaround helpers

Single-character lookbehinds `(?<!\d)`, `(?<![A-Za-z0-9])` and the word
boundary `\b` only inspect the character just before the match position
(`none` at the start of the string) and the first unconsumed character. -/

def prevDigit : Option Char → Bool
  | some c => isDig c
  | none => false

def prevAlnum : Option Char → Bool
  | some c => isAlnumCh c
  | none => false

def prevWord : Option Char → Bool
  | some c => isWordCh c
  | none => false

def headDigit : List Char → Bool
  | c :: _ => isDig c
  | [] => false

def headAlnum : List Char → Bool
  | c :: _ => isAlnumCh c
  | [] => false

def headWord : List Char → Bool
  | c :: _ => isWordCh c
  | [] => false

/-! ## Generic search and global-substitution scanners

`searchGo m prev cs` models `pattern.search`: it tries the single-position
matcher `m` at every position from left to right and returns the first
result.  `subGo m fuel prev cs` models `pattern.sub`: it replaces every
non-overlapping match, scanning left to right; `m` here returns the
replacement text, the last character of the consumed span (the lookbehind
character for the positions that follow) and the unconsumed remainder.
The `fuel` argument only serves termination; `cs.length` is always enough
because every matcher consumes at least one character. -/

def orElseO : Option α → Option α → Option α
  | some a, _ => some a
  | none, b => b

def searchGo (m : Option Char → List Char → Option α) : Option Char → List Char → Option α
  | prev, [] => m prev []
  | prev, c :: rest => orElseO (m prev (c :: rest)) (searchGo m (some c) rest)

def subGo (m : Option Char → List Char → Option (List Char × Char × List Char)) :
    Nat → Option Char → List Char → List Char
  | 0, _, cs => cs
  | fuel + 1, prev, cs =>
    match m prev cs with
    | some (rep, lc, rest) => rep ++ subGo m fuel (some lc) rest
    | none =>
      match cs with
      | [] => []
      | c :: rest => c :: subGo m fuel (some c) rest

/-- Consume exactly `n` decimal digits. -/
def takeDigits : Nat → List Char → Option (List Char × List Char)
  | 0, cs => some ([], cs)
  | _ + 1, [] => none
  | n + 1, c :: cs =>
    if isDig c then (takeDigits n cs).map (fun p => (c :: p.1, p.2)) else none

def stripChar (ch : Char) : List Char → Option (List Char)
  | c :: rest => if c = ch then some rest else none
  | [] => none

/-! ## RE_PHONE_STRICT = `(?<!\d)(?:\+?91[-\s]?)?([6-9]\d{9})(?!\d)`

`phoneHere prev cs` returns `(consumed, group1, rest)`.  The optional
prefix is tried in the regex engine's greedy backtracking order:
`+91` with separator, `+91`, `91` with separator, `91`, nothing. -/

def phoneCore : List Char → Option (List Char × List Char)
  | [] => none
  | c :: cs =>
    if isPh c then
      match takeDigits 9 cs with
      | some (ds, rest) => if headDigit rest then none else some (c :: ds, rest)
      | none => none
    else none

def phoneWithPre (pre : List Char) (cs : List Char) :
    Option (List Char × List Char × List Char) :=
  match phoneCore cs with
  | some (g, rest) => some (pre ++ g, g, rest)
  | none => none

def strip91 (cs : List Char) : Option (List Char) :=
  (stripChar '9' cs).bind (stripChar '1')

def phoneSepTail (pre : List Char) : List Char → Option (List Char × List Char × List Char)
  | c :: rest => if isSepCh c then phoneWithPre (pre ++ [c]) rest else none
  | [] => none

def phoneHere (prev : Option Char) (cs : List Char) :
    Option (List Char × List Char × List Char) :=
  if prevDigit prev then none
  else
    orElseO ((stripChar '+' cs).bind fun r =>
        (strip91 r).bind fun r2 => phoneSepTail ['+', '9', '1'] r2)
      (orElseO ((stripChar '+' cs).bind fun r =>
          (strip91 r).bind fun r2 => phoneWithPre ['+', '9', '1'] r2)
        (orElseO ((strip91 cs).bind fun r2 => phoneSepTail ['9', '1'] r2)
          (orElseO ((strip91 cs).bind fun r2 => phoneWithPre ['9', '1'] r2)
            (phoneWithPre [] cs))))

def sixX : List Char := ['X', 'X', 'X', 'X', 'X', 'X']

/-- `num[:2] + "XXXXXX" + num[-2:]` for the 10-digit capture `num`. -/
def phoneMaskL (g : List Char) : List Char :=
  g.take 2 ++ sixX ++ g.drop (g.length - 2)

def phoneSubM (rep : List Char) (prev : Option Char) (cs : List Char) :
    Option (List Char × Char × List Char) :=
  (phoneHere prev cs).map fun r => (rep, r.1.getLastD 'X', r.2.2)

/-- `mask_phone`: compute the mask from the first match's digits, then
substitute that same text for every match. -/
def maskPhoneL (cs : List Char) : List Char :=
  match searchGo phoneHere none cs with
  | none => cs
  | some (_, g1, _) => subGo (phoneSubM (phoneMaskL g1)) cs.length none cs

def mask_phone (v : String) : String := String.mk (maskPhoneL v.data)

/-! ## RE_AADHAR = `(?<!\d)(\d{4})[\s-]?(\d{4})[\s-]?(\d{4})(?!\d)`

The optional separators are deterministic: if the next character is a
separator the branch without it dies immediately on `\d{4}`, and
conversely, so no backtracking is observable. -/

def takeOptSep : List Char → List Char × List Char
  | c :: r => if isSepCh c then ([c], r) else ([], c :: r)
  | [] => ([], [])

def aadharHere (prev : Option Char) (cs : List Char) :
    Option (List Char × List Char) :=
  if prevDigit prev then none
  else
    match takeDigits 4 cs with
    | none => none
    | some (g1, r1) =>
      let s1 := takeOptSep r1
      match takeDigits 4 s1.2 with
      | none => none
      | some (g2, r2) =>
        let s2 := takeOptSep r2
        match takeDigits 4 s2.2 with
        | none => none
        | some (g3, r3) =>
          if headDigit r3 then none
          else some (g1 ++ s1.1 ++ g2 ++ s2.1 ++ g3, r3)

def aadharMaskL : List Char :=
  ['X', 'X', 'X', 'X', '-', 'X', 'X', 'X', 'X', '-', 'X', 'X', 'X', 'X']

def aadharSubM (prev : Option Char) (cs : List Char) :
    Option (List Char × Char × List Char) :=
  (aadharHere prev cs).map fun r => (aadharMaskL, r.1.getLastD 'X', r.2)

def mask_aadhar (v : String) : String :=
  String.mk (subGo aadharSubM v.data.length none v.data)

/-! ## RE_PASSPORT_IN = `(?<![A-Za-z0-9])([A-PR-WYa-pr-wy])[ ]?(\d{7})(?![A-Za-z0-9])`

`passportHere` returns `(letter, digits7, rest)`; the optional single
space is again deterministic. -/

def passportTail (letter : Char) (r1 : List Char) :
    Option (Char × List Char × List Char) :=
  match takeDigits 7 r1 with
  | some (ds, rest) => if headAlnum rest then none else some (letter, ds, rest)
  | none => none

def passportHere (prev : Option Char) (cs : List Char) :
    Option (Char × List Char × List Char) :=
  if prevAlnum prev then none
  else
    match cs with
    | c :: r =>
      if isPassLetter c then
        match r with
        | c2 :: r2 => if c2 = ' ' then passportTail c r2 else passportTail c r
        | [] => none
      else none
    | [] => none

/-- `m.group(1).upper() + "XXXXXX" + m.group(2)[-1]`. -/
def passportMaskL (letter : Char) (ds : List Char) : List Char :=
  asciiUpperChar letter :: (sixX ++ [ds.getLastD 'X'])

def passportSubM (prev : Option Char) (cs : List Char) :
    Option (List Char × Char × List Char) :=
  (passportHere prev cs).map fun r =>
    (passportMaskL r.1 r.2.1, r.2.1.getLastD 'X', r.2.2)

def mask_passport (v : String) : String :=
  String.mk (subGo passportSubM v.data.length none v.data)

/-! ## RE_UPI = `([a-zA-Z0-9.\-_]{2,})@([a-zA-Z]{2,})`

Since `@` is not in the handle class, the greedy group 1 is exactly the
maximal run of handle characters ending right before an `@`; group 2 is
the maximal letter run after it.  `upiHere` returns `(g1, g2, rest)`. -/

def upiHere (_prev : Option Char) (cs : List Char) :
    Option (List Char × List Char × List Char) :=
  let g1 := cs.takeWhile isUpiName
  let rest1 := cs.dropWhile isUpiName
  if 2 ≤ g1.length then
    match rest1 with
    | c :: r2 =>
      if c = '@' then
        let g2 := r2.takeWhile isAlphaCh
        if 2 ≤ g2.length then some (g1, g2, r2.drop g2.length) else none
      else none
    | [] => none
  else none

/-- `g1[:2] + "*" * max(1, len(g1)-3) + g1[-1:] + "@" + g2`. -/
def upiMaskL (g1 g2 : List Char) : List Char :=
  g1.take 2 ++ List.replicate (max 1 (g1.length - 3)) '*' ++
    g1.drop (g1.length - 1) ++ '@' :: g2

def upiSubM (prev : Option Char) (cs : List Char) :
    Option (List Char × Char × List Char) :=
  (upiHere prev cs).map fun r => (upiMaskL r.1 r.2.1, r.2.1.getLastD '*', r.2.2)

def mask_upi (v : String) : String :=
  String.mk (subGo upiSubM v.data.length none v.data)

/-! ## RE_EMAIL = `([a-zA-Z0-9._%+\-]{2,})@([A-Za-z0-9.\-]+\.[A-Za-z]{2,})`

For the domain, the greedy `[A-Za-z0-9.\-]+` first takes the maximal run
`R` and then backtracks: the engine picks the largest index `j ≥ 1` in `R`
holding a `'.'` followed by at least two letters; the trailing `[A-Za-z]{2,}`
is the maximal letter run after that dot. -/

def findDotJ (R : List Char) : Nat → Option Nat
  | 0 => none
  | j + 1 =>
    if R.getD (j + 1) ' ' = '.' && 2 ≤ ((R.drop (j + 2)).takeWhile isAlphaCh).length
    then some (j + 1) else findDotJ R j

def emailHere (_prev : Option Char) (cs : List Char) :
    Option (List Char × List Char × List Char) :=
  let g1 := cs.takeWhile isEmailLocal
  let rest1 := cs.dropWhile isEmailLocal
  if 2 ≤ g1.length then
    match rest1 with
    | c :: r2 =>
      if c = '@' then
        let R := r2.takeWhile isDomACh
        match findDotJ R (R.length - 1) with
        | some j =>
          let L := (R.drop (j + 1)).takeWhile isAlphaCh
          some (g1, R.take j ++ '.' :: L, r2.drop (j + 1 + L.length))
        | none => none
      else none
    | [] => none
  else none

/-- `g1[:2] + "*" * max(1, len(g1)-2) + "@" + g2`. -/
def emailMaskL (g1 g2 : List Char) : List Char :=
  g1.take 2 ++ List.replicate (max 1 (g1.length - 2)) '*' ++ '@' :: g2

def emailSubM (prev : Option Char) (cs : List Char) :
    Option (List Char × Char × List Char) :=
  (emailHere prev cs).map fun r => (emailMaskL r.1 r.2.1, r.2.1.getLastD '*', r.2.2)

def mask_email (v : String) : String :=
  String.mk (subGo emailSubM v.data.length none v.data)

/-! ## RE_IP = `\b((?:\d{1,3}\.){3}\d{1,3})\b`

Backtracking on `\d{1,3}` collapses: each of the first three octets must
be an entire digit run of length 1 to 3 followed by `'.'`, and the last
must be an entire run of length 1 to 3 followed by a non-word character
(or the end).  `ipHere` returns the four octets and the rest. -/

def octetRun (cs : List Char) : List Char × List Char :=
  (cs.takeWhile isDig, cs.dropWhile isDig)

def octLen (o : List Char) : Bool := 1 ≤ o.length && o.length ≤ 3

def ipTail3 (r1 : List Char) :
    Option (List Char × List Char × List Char × List Char) :=
  let p2 := octetRun r1
  if octLen p2.1 then
    match p2.2 with
    | c2 :: r2 =>
      if c2 = '.' then
        let p3 := octetRun r2
        if octLen p3.1 then
          match p3.2 with
          | c3 :: r3 =>
            if c3 = '.' then
              let p4 := octetRun r3
              if octLen p4.1 && !headWord p4.2 then
                some (p2.1, p3.1, p4.1, p4.2)
              else none
            else none
          | [] => none
        else none
      else none
    | [] => none
  else none

def ipHere (prev : Option Char) (cs : List Char) :
    Option (List Char × List Char × List Char × List Char × List Char) :=
  if prevWord prev then none
  else
    let p1 := octetRun cs
    if octLen p1.1 then
      match p1.2 with
      | c1 :: r1 =>
        if c1 = '.' then
          (ipTail3 r1).map fun r => (p1.1, r.1, r.2.1, r.2.2.1, r.2.2.2)
        else none
      | [] => none
    else none

def octVal (o : List Char) : Nat := o.foldl (fun n c => n * 10 + (c.toNat - 48)) 0

/-- `".".join(m.group(1).split(".")[:2]) + ".*.*"`. -/
def ipMaskL (o1 o2 : List Char) : List Char :=
  o1 ++ '.' :: o2 ++ ['.', '*', '.', '*']

def ipSubM (prev : Option Char) (cs : List Char) :
    Option (List Char × Char × List Char) :=
  (ipHere prev cs).map fun r =>
    (ipMaskL r.1 r.2.1, r.2.2.2.1.getLastD '*', r.2.2.2.2)

def mask_ip (v : String) : String :=
  String.mk (subGo ipSubM v.data.length none v.data)

/-! ## RE_PINCODE = `(?<!\d)(\d{6})(?!\d)` -/

def pinHere (prev : Option Char) (cs : List Char) : Option (List Char × List Char) :=
  if prevDigit prev then none
  else
    match takeDigits 6 cs with
    | some (ds, rest) => if headDigit rest then none else some (ds, rest)
    | none => none

/-! ## Content predicates and remaining helpers -/

/-- `val.strip()` (whitespace trim on both ends). -/
def trimCh (cs : List Char) : List Char :=
  ((cs.dropWhile isSpaceCh).reverse.dropWhile isSpaceCh).reverse

/-- `RE_NAME_TWO_PARTS.match(val.strip())`: the anchored pattern
`^[A-Za-z]{2,}[ ,]+[A-Za-z]{2,}$`, whose greedy runs are deterministic
because the character classes are disjoint. -/
def looks_like_full_name (v : String) : Bool :=
  let s := trimCh v.data
  let r1 := s.takeWhile isAlphaCh
  let s1 := s.dropWhile isAlphaCh
  let sp := s1.takeWhile nameSepCh
  let s2 := s1.dropWhile nameSepCh
  let r2 := s2.takeWhile isAlphaCh
  let s3 := s2.dropWhile isAlphaCh
  2 ≤ r1.length && 1 ≤ sp.length && 2 ≤ r2.length && s3.isEmpty

def contains_aadhar (v : String) : Bool := (searchGo aadharHere none v.data).isSome

def contains_passport (v : String) : Bool := (searchGo passportHere none v.data).isSome

def contains_upi (v : String) : Bool := (searchGo upiHere none v.data).isSome

def contains_email (v : String) : Bool := (searchGo emailHere none v.data).isSome

/-- `contains_ip`: search for the IP shape, then validate every octet to
lie in 0 to 255; a failing octet makes the whole check `false`. -/
def contains_ip (v : String) : Bool :=
  match searchGo ipHere none v.data with
  | some (o1, o2, o3, o4, _) =>
    octVal o1 ≤ 255 && octVal o2 ≤ 255 && octVal o3 ≤ 255 && octVal o4 ≤ 255
  | none => false

def startsWithL : List Char → List Char → Bool
  | [], _ => true
  | _ :: _, [] => false
  | a :: as, b :: bs => a = b && startsWithL as bs

/-- `needle in hay` for character lists (Python substring test). -/
def isSubL (needle : List Char) : List Char → Bool
  | [] => needle.isEmpty
  | c :: rest => startsWithL needle (c :: rest) || isSubL needle rest

def streetTokens : List (List Char) :=
  ["street".data, "st.".data, "road".data, "rd.".data, "lane".data, "block".data,
   "sector".data, "apt".data, "apartment".data, "floor".data, "phase".data]

def contains_address (v : String) : Bool :=
  if (searchGo pinHere none v.data).isSome then
    let low := v.data.map asciiLowerChar
    streetTokens.any (fun t => isSubL t low) && v.data.any isDig
  else false

/-- `re.split(r'\s+', val.strip())` followed by the filter `if p`:
splitting at single whitespace characters yields extra empty tokens at
whitespace runs, which the empty-token filter removes again, so the
composite agrees with splitting at `\s+`. -/
def splitWsAux : List Char → List Char → List (List Char)
  | [], acc => [acc.reverse]
  | c :: rest, acc =>
    if isSpaceCh c then acc.reverse :: splitWsAux rest []
    else splitWsAux rest (c :: acc)

def splitWs (cs : List Char) : List (List Char) :=
  (splitWsAux cs []).filter (fun p => !p.isEmpty)

def tokMask (p : List Char) : List Char :=
  match p with
  | c :: _ => asciiUpperChar c :: ['X', 'X', 'X']
  | [] => []

def joinSp : List (List Char) → List Char
  | [] => []
  | [w] => w
  | w :: ws => w ++ ' ' :: joinSp ws

def mask_name_like (v : String) : String :=
  String.mk (joinSp ((splitWs (trimCh v.data)).map tokMask))

/-! ## Key sets and field classification -/

def PHONE_LIKE_KEYS : List String :=
  ["phone", "contact", "mobile", "alt_phone", "phone_number"]

def ADDRESS_KEYS : List String := ["address", "shipping_address", "billing_address"]

def NAME_KEYS : List String := ["name", "full_name"]

def SAFE_NUMERIC_ID_KEYS : List String :=
  ["order_id", "transaction_id", "product_id", "ticket_id", "warehouse_code",
   "customer_id", "gst_number", "state_code", "booking_reference"]

/-- `is_phone_value(key, val)`: deny-listed keys are never phones; a
phone-like key plus a pattern hit is a phone; otherwise exactly ten
digits overall plus a pattern hit. -/
def is_phone_value (key : String) (v : String) : Bool :=
  if SAFE_NUMERIC_ID_KEYS.contains key then false
  else if PHONE_LIKE_KEYS.contains (asciiLower key) && (searchGo phoneHere none v.data).isSome
  then true
  else (v.data.filter isDig).length = 10 && (searchGo phoneHere none v.data).isSome

/-! ## Records

A record is an insertion-ordered mapping (a Python `dict`), embedded as an
association list.  Values are dynamic: a string, a dict/list (carrying its
`json.dumps` and `str` renderings, which the code uses in the first and
second pass respectively), or another scalar carrying its `str` rendering. -/

inductive Value where
  | vstr (s : String)
  | vjson (jrep : String) (srep : String)
  | vother (srep : String)
deriving DecidableEq

abbrev Record := List (String × Value)

/-- The coercion of line 112: `val if str else (json.dumps(val) if dict/list
else str(val))`. -/
def svalOfA : Value → String
  | .vstr s => s
  | .vjson j _ => j
  | .vother r => r

/-- The coercion of line 154 (combinatorial pass): `val if str else str(val)`. -/
def svalOfB : Value → String
  | .vstr s => s
  | .vjson _ r => r
  | .vother r => r

def isStrV : Value → Bool
  | .vstr _ => true
  | _ => false

/-- `red[key] = v` on a dict: replace the value at an existing key in
place (keys are unique in a Python dict, so replacing every occurrence
is the same operation and keeps the embedding total). -/
def updateVal (red : Record) (k : String) (v : Value) : Record :=
  red.map (fun kv => if kv.1 = k then (kv.1, v) else kv)

def lookupVal (red : Record) (k : String) : Option Value :=
  match red with
  | [] => none
  | kv :: rest => if kv.1 = k then some kv.2 else lookupVal rest k

/-! ## Signal set and scorer -/

structure CSignals where
  name : Bool
  email : Bool
  address : Bool
  device : Bool
  ip : Bool
deriving DecidableEq

def noSigs : CSignals := ⟨false, false, false, false, false⟩

def unionSigs (a b : CSignals) : CSignals :=
  ⟨a.name || b.name, a.email || b.email, a.address || b.address,
   a.device || b.device, a.ip || b.ip⟩

def sigCount (s : CSignals) : Nat :=
  (if s.name then 1 else 0) + (if s.email then 1 else 0) + (if s.address then 1 else 0) +
  (if s.device then 1 else 0) + (if s.ip then 1 else 0)

/-- The combinatorial signals one field contributes (lines 131-140),
given the lowered key and the first-pass string coercion of the value. -/
def comboSigsOf (lowkey : String) (sval : String) : CSignals :=
  ⟨(NAME_KEYS.contains lowkey && looks_like_full_name sval) ||
     ((lowkey = "first_name" || lowkey = "last_name") && 2 ≤ (trimCh sval.data).length),
   contains_email sval,
   ADDRESS_KEYS.contains lowkey && contains_address sval,
   lowkey = "device_id" && 6 ≤ (trimCh sval.data).length,
   lowkey = "ip_address" && contains_ip sval⟩

/-- Lines 142-149: the verdict from the distinct-signal count and the
standalone flag. -/
def scoreVerdict (s : CSignals) (standalone : Bool) : Bool :=
  if 2 ≤ sigCount s then
    if (s.device || s.ip) && !(s.name || s.email || s.address) then standalone else true
  else standalone

/-! ## The classification pass, combinatorial pass and final sweep -/

structure DetSt where
  standalone : Bool
  sigs : CSignals
  red : Record
deriving DecidableEq

/-- One iteration of the classification loop (lines 110-140): the four
standalone categories in priority order, each `continue`-ing past the
combinatorial checks; otherwise the field's combinatorial signals are
added. -/
def classStep (kv : String × Value) (st : DetSt) : DetSt :=
  let lowkey := asciiLower kv.1
  let sval := svalOfA kv.2
  if is_phone_value lowkey sval then
    ⟨true, st.sigs, updateVal st.red kv.1 (Value.vstr (mask_phone sval))⟩
  else if contains_aadhar sval then
    ⟨true, st.sigs, updateVal st.red kv.1 (Value.vstr (mask_aadhar sval))⟩
  else if contains_passport sval then
    ⟨true, st.sigs, updateVal st.red kv.1 (Value.vstr (mask_passport sval))⟩
  else if contains_upi sval then
    ⟨true, st.sigs, updateVal st.red kv.1 (Value.vstr (mask_upi sval))⟩
  else
    ⟨st.standalone, unionSigs st.sigs (comboSigsOf lowkey sval), st.red⟩

def detClassify : List (String × Value) → DetSt → DetSt
  | [], st => st
  | kv :: rest, st => detClassify rest (classStep kv st)

def maskFirstTok (sval : String) : String :=
  match sval.data with
  | c :: _ => String.mk (asciiUpperChar c :: ['X', 'X', 'X'])
  | [] => sval

/-- One iteration of the combinatorial-pass loop (lines 152-169): an
`elif` cascade keyed on the original record's fields, writing into the
working copy. -/
def comboStep (kv : String × Value) (red : Record) : Record :=
  let lowkey := asciiLower kv.1
  let sval := svalOfB kv.2
  if NAME_KEYS.contains lowkey && looks_like_full_name sval then
    updateVal red kv.1 (Value.vstr (mask_name_like sval))
  else if lowkey = "first_name" then
    updateVal red kv.1 (Value.vstr (maskFirstTok sval))
  else if lowkey = "last_name" then
    updateVal red kv.1 (Value.vstr (maskFirstTok sval))
  else if contains_email sval then
    updateVal red kv.1 (Value.vstr (mask_email sval))
  else if ADDRESS_KEYS.contains lowkey && contains_address sval then
    updateVal red kv.1 (Value.vstr "[REDACTED_ADDRESS]")
  else if lowkey = "ip_address" && contains_ip sval then
    updateVal red kv.1 (Value.vstr (mask_ip sval))
  else if lowkey = "device_id" && 6 ≤ (trimCh sval.data).length then
    updateVal red kv.1 (Value.vstr "[REDACTED_DEVICE_ID]")
  else red

def detCombo : List (String × Value) → Record → Record
  | [], red => red
  | kv :: rest, red => detCombo rest (comboStep kv red)

/-- The final standalone sweep applied to one string value (lines
175-181): the six maskers in their fixed order. -/
def sweepStr (s : String) : String :=
  mask_ip (mask_email (mask_upi (mask_passport (mask_aadhar (mask_phone s)))))

/-- The sweep on one value: only strings are touched. -/
def sweepVal : Value → Value
  | Value.vstr s => Value.vstr (sweepStr s)
  | v => v

/-- Lines 171-182: sweep every string-valued field of the working copy. -/
def sweepRec (red : Record) : Record :=
  red.map (fun kv => (kv.1, sweepVal kv.2))

/-- `detect_and_redact` (lines 105-184). -/
def detect_and_redact (record : Record) : Bool × Record :=
  let st := detClassify record ⟨false, noSigs, record⟩
  let is_pii := scoreVerdict st.sigs st.standalone
  let red1 := if is_pii && decide (0 < sigCount st.sigs) then detCombo record st.red else st.red
  let red2 := if is_pii then sweepRec red1 else red1
  (is_pii, red2)

/-! ## Definitions used only in the statements of the claims -/

/-- Does a field match one of the four standalone categories (the
conditions of the `continue` branches of the classification loop)? -/
def fieldStandalone (kv : String × Value) : Bool :=
  is_phone_value (asciiLower kv.1) (svalOfA kv.2) || contains_aadhar (svalOfA kv.2) ||
    contains_passport (svalOfA kv.2) || contains_upi (svalOfA kv.2)

/-- Signal-set inclusion, pointwise on the five categories. -/
def sigLeB (a b : CSignals) : Bool :=
  (!a.name || b.name) && (!a.email || b.email) && (!a.address || b.address) &&
    (!a.device || b.device) && (!a.ip || b.ip)

/-- The union of the combinatorial signals of exactly those fields that
did not match a standalone category (the amended reading of the
collection rule). -/
def comboSignalsAmended (record : Record) : CSignals :=
  record.foldl
    (fun s kv =>
      if fieldStandalone kv then s
      else unionSigs s (comboSigsOf (asciiLower kv.1) (svalOfA kv.2)))
    noSigs

/-- The decision policy exactly as the specification words it: with at
least two distinct signals but none of name/email/address, fall back to
the standalone flag; with at least two signals and an identity-bearing
one, PII unconditionally; otherwise the standalone flag. -/
def verdictSpec (s : CSignals) (standalone : Bool) : Bool :=
  if 2 ≤ sigCount s && !s.name && !s.email && !s.address then standalone
  else if 2 ≤ sigCount s then true
  else standalone

/-- No occurrence of any of the six standalone-sweep patterns. -/
def noMatchesB (s : String) : Bool :=
  (searchGo phoneHere none s.data).isNone && (searchGo aadharHere none s.data).isNone &&
    (searchGo passportHere none s.data).isNone && (searchGo upiHere none s.data).isNone &&
    (searchGo emailHere none s.data).isNone && (searchGo ipHere none s.data).isNone

/-- Every string field of the swept record is free of the six patterns. -/
def sweptCleanB (red : Record) : Bool :=
  (sweepRec red).all fun kv =>
    match kv.2 with
    | Value.vstr s => noMatchesB s
    | _ => true

/-- A string free of decimal digits and of `'+'`: such text can neither
contain nor border a phone match. -/
def phoneSafeB (s : String) : Bool := s.data.all fun c => !isDig c && !(c = '+' : Bool)

/-- A value the phone pattern matches in whole: ten digits, the first
in 6 to 9. -/
def validPhoneB (n : String) : Bool :=
  n.data.length = 10 && n.data.all isDig && isPh (n.data.headD 'x')

/-- The redacted form of a full phone capture: first two digits, six
`X`, last two digits. -/
def phoneMaskOf (n : String) : String := String.mk (phoneMaskL n.data)

/-- A context string that is inert around a phone occurrence: free of
decimal digits (which could extend, border or form digit-based
patterns), of `'+'` (the phone prefix opener) and of `'@'` (the anchor
of the UPI and email patterns). -/
def ctxSafeB (s : String) : Bool :=
  s.data.all fun c => !isDig c && !(c = '+' : Bool) && !(c = '@' : Bool)

/-- A character-level view of `ctxSafeB`. -/
def CtxSafe (c : Char) : Prop := isDig c = false ∧ ¬(c = '+') ∧ ¬(c = '@')

/-- The optional-prefix forms of the phone pattern, `(?:\+?91[-\s]?)?`:
nothing, `91`, `+91`, each of the latter optionally followed by one
separator from `[-\s]`. -/
def phonePreL : List Char → Bool
  | [] => true
  | [x, y] => x = '9' && y = '1'
  | [x, y, z] => (x = '9' && y = '1' && isSepCh z) || (x = '+' && y = '9' && z = '1')
  | [x, y, z, w] => x = '+' && y = '9' && z = '1' && isSepCh w
  | _ => false

def phonePreB (p : String) : Bool := phonePreL p.data

/-- The same prefix forms as a predicate. -/
def PhonePre (p : List Char) : Prop :=
  p = [] ∨ p = ['9', '1'] ∨ p = ['+', '9', '1'] ∨
    ∃ s, isSepCh s = true ∧ (p = ['9', '1', s] ∨ p = ['+', '9', '1', s])

/-! # Lemmas

## Character classes -/

theorem not_plus_of_isDig {c : Char} (h : isDig c = true) : ¬(c = '+') := by
  intro hc
  subst hc
  simp [isDig] at h

theorem not_nine_eq_of_not_isDig {c : Char} (h : isDig c = false) : ¬(c = '9') := by
  intro hc
  subst hc
  simp [isDig] at h

theorem isDig_of_isPh {c : Char} (h : isPh c = true) : isDig c = true := by
  simp only [isPh, Bool.and_eq_true, decide_eq_true_eq] at h
  simp only [isDig, Bool.and_eq_true, decide_eq_true_eq]
  omega

theorem isPh_false_of_not_isDig {c : Char} (h : isDig c = false) : isPh c = false := by
  rcases hph : isPh c with _ | _
  · rfl
  · rw [isDig_of_isPh hph] at h
    exact absurd h (by simp)

theorem isSepCh_false_of_isDig {c : Char} (h : isDig c = true) : isSepCh c = false := by
  rcases hs : isSepCh c with _ | _
  · rfl
  · exfalso
    simp only [isSepCh, isSpaceCh, Bool.or_eq_true, decide_eq_true_eq] at hs
    rcases hs with h1 | hX
    · subst h1
      revert h
      decide
    · rcases hX with ((((h1 | h1) | h1) | h1) | h1) | h1 <;> (subst h1; revert h; decide)

theorem isAlnum_of_isDig {c : Char} (h : isDig c = true) : isAlnumCh c = true := by
  simp [isAlnumCh, h]

theorem isWord_of_isDig {c : Char} (h : isDig c = true) : isWordCh c = true := by
  simp [isWordCh, isAlnum_of_isDig h]

theorem isPassLetter_false_of_isDig {c : Char} (h : isDig c = true) :
    isPassLetter c = false := by
  rcases hp : isPassLetter c with _ | _
  · rfl
  · exfalso
    simp only [isDig, Bool.and_eq_true, decide_eq_true_eq] at h
    simp only [isPassLetter, Bool.or_eq_true, Bool.and_eq_true, decide_eq_true_eq] at hp
    rcases hp with ((((⟨h1, h2⟩ | ⟨h1, h2⟩) | hY) | ⟨h1, h2⟩) | ⟨h1, h2⟩) | hy
    · omega
    · omega
    · subst hY
      revert h
      decide
    · omega
    · omega
    · subst hy
      revert h
      decide

theorem isUpiName_of_isDig {c : Char} (h : isDig c = true) : isUpiName c = true := by
  simp [isUpiName, isAlnum_of_isDig h]

theorem isEmailLocal_of_isDig {c : Char} (h : isDig c = true) : isEmailLocal c = true := by
  simp [isEmailLocal, isAlnum_of_isDig h]

/-! ## Generic scanner lemmas -/

theorem orElseO_none_left (b : Option α) : orElseO none b = b := rfl

theorem orElseO_some (a : α) (b : Option α) : orElseO (some a) b = some a := rfl

theorem searchGo_of_match {m : Option Char → List Char → Option α} {prev : Option Char}
    {cs : List Char} {r : α} (h : m prev cs = some r) : searchGo m prev cs = some r := by
  cases cs with
  | nil => simpa [searchGo] using h
  | cons c rest => simp [searchGo, h, orElseO]

theorem searchGo_none_of_allFail {m : Option Char → List Char → Option α} :
    ∀ (cs : List Char) (prev : Option Char),
      (∀ (prev2 : Option Char) (suf : List Char), (∃ pre, pre ++ suf = cs) →
        m prev2 suf = none) →
      searchGo m prev cs = none := by
  intro cs
  induction cs with
  | nil =>
    intro prev h
    simpa [searchGo] using h prev [] ⟨[], rfl⟩
  | cons c rest ih =>
    intro prev h
    have h0 : m prev (c :: rest) = none := h prev (c :: rest) ⟨[], rfl⟩
    simp only [searchGo, h0, orElseO_none_left]
    exact ih (some c) fun prev2 suf hsuf => by
      obtain ⟨pre, hpre⟩ := hsuf
      exact h prev2 suf ⟨c :: pre, by simp [hpre]⟩

/-- With no match anywhere (as witnessed by a failing search along the
same scan), global substitution is the identity. -/
theorem subGo_id_of_searchNone {m : Option Char → List Char → Option α}
    {m2 : Option Char → List Char → Option (List Char × Char × List Char)}
    (hmf : ∀ p l, m p l = none → m2 p l = none) :
    ∀ (cs : List Char) (fuel : Nat) (prev : Option Char),
      searchGo m prev cs = none → subGo m2 fuel prev cs = cs := by
  intro cs
  induction cs with
  | nil =>
    intro fuel prev h
    cases fuel with
    | zero => rfl
    | succ f =>
      have h0 : m prev [] = none := by simpa [searchGo] using h
      simp [subGo, hmf _ _ h0]
  | cons c rest ih =>
    intro fuel prev h
    have h1 : m prev (c :: rest) = none := by
      rcases h2 : m prev (c :: rest) with _ | r
      · rfl
      · rw [searchGo, h2, orElseO_some] at h
        exact absurd h (by simp)
    have h3 : searchGo m (some c) rest = none := by
      rwa [searchGo, h1, orElseO_none_left] at h
    cases fuel with
    | zero => rfl
    | succ f => simp [subGo, hmf _ _ h1, ih f (some c) h3]

/-- The previous-character tracker after scanning over `xs`. -/
def prevEnd (xs : List Char) (prev : Option Char) : Option Char :=
  match xs.getLast? with
  | some c => some c
  | none => prev

theorem prevEnd_nil (prev : Option Char) : prevEnd [] prev = prev := rfl

theorem prevEnd_cons (x : Char) (xs : List Char) (prev : Option Char) :
    prevEnd (x :: xs) prev = prevEnd xs (some x) := by
  cases xs with
  | nil => rfl
  | cons y t => simp [prevEnd, List.getLast?]

theorem mem_of_getLastQ : ∀ (l : List Char) (c : Char), l.getLast? = some c → c ∈ l := by
  intro l
  induction l with
  | nil => intro c h; simp at h
  | cons x t ih =>
    intro c h
    cases t with
    | nil =>
      simp [List.getLast?] at h
      simp [h]
    | cons y s =>
      rw [List.getLast?_cons_cons] at h
      exact List.mem_cons_of_mem x (ih c h)

theorem prevEnd_cases (xs : List Char) (prev : Option Char) :
    prevEnd xs prev = prev ∨ ∃ c, c ∈ xs ∧ prevEnd xs prev = some c := by
  unfold prevEnd
  rcases h : xs.getLast? with _ | c
  · exact Or.inl rfl
  · exact Or.inr ⟨c, mem_of_getLastQ xs c h, rfl⟩

/-- Scanning for a match walks over any run of characters at which the
matcher dies on the head character alone. -/
theorem searchGo_skip {m : Option Char → List Char → Option α} {P : Char → Prop}
    (hm : ∀ (prev : Option Char) (c : Char) (cs2 : List Char), P c → m prev (c :: cs2) = none) :
    ∀ (xs rest : List Char) (prev : Option Char), (∀ x ∈ xs, P x) →
      searchGo m prev (xs ++ rest) = searchGo m (prevEnd xs prev) rest := by
  intro xs
  induction xs with
  | nil => intro rest prev _; simp [prevEnd_nil]
  | cons x t ih =>
    intro rest prev hP
    have hx : P x := hP x (by simp)
    rw [List.cons_append, searchGo, hm prev x (t ++ rest) hx, orElseO_none_left,
      ih rest (some x) (fun y hy => hP y (by simp [hy])), prevEnd_cons]

/-- Global substitution likewise copies such a run unchanged. -/
theorem subGo_skip {m : Option Char → List Char → Option (List Char × Char × List Char)}
    {P : Char → Prop}
    (hm : ∀ (prev : Option Char) (c : Char) (cs2 : List Char), P c → m prev (c :: cs2) = none) :
    ∀ (xs rest : List Char) (prev : Option Char) (fuel : Nat), (∀ x ∈ xs, P x) →
      xs.length ≤ fuel →
      subGo m fuel prev (xs ++ rest) = xs ++ subGo m (fuel - xs.length) (prevEnd xs prev) rest := by
  intro xs
  induction xs with
  | nil => intro rest prev fuel _ _; simp [prevEnd_nil]
  | cons x t ih =>
    intro rest prev fuel hP hfuel
    cases fuel with
    | zero => simp at hfuel
    | succ f =>
      have hx : P x := hP x (by simp)
      rw [List.cons_append, subGo, hm prev x (t ++ rest) hx]
      rw [ih rest (some x) f (fun y hy => hP y (by simp [hy])) (by simpa using hfuel)]
      simp [prevEnd_cons, Nat.succ_sub_succ]

theorem subGo_match {m : Option Char → List Char → Option (List Char × Char × List Char)}
    {prev : Option Char} {cs rep rest : List Char} {lc : Char} {fuel : Nat}
    (h : m prev cs = some (rep, lc, rest)) (hf : 1 ≤ fuel) :
    subGo m fuel prev cs = rep ++ subGo m (fuel - 1) (some lc) rest := by
  cases fuel with
  | zero => simp at hf
  | succ f => simp [subGo, h]

theorem subGo_nil {m : Option Char → List Char → Option (List Char × Char × List Char)}
    {prev : Option Char} {fuel : Nat} (h : m prev [] = none) : subGo m fuel prev [] = [] := by
  cases fuel with
  | zero => rfl
  | succ f => simp [subGo, h]

/-! ## takeDigits -/

theorem takeDigits_exact :
    ∀ (ds rest : List Char), (∀ c ∈ ds, isDig c = true) →
      takeDigits ds.length (ds ++ rest) = some (ds, rest) := by
  intro ds
  induction ds with
  | nil => intro rest _; rfl
  | cons d t ih =>
    intro rest h
    have hd : isDig d = true := h d (by simp)
    simp [takeDigits, hd, ih rest (fun c hc => h c (by simp [hc]))]

theorem takeDigits_short :
    ∀ (ds : List Char) (n : Nat) (rest : List Char), (∀ c ∈ ds, isDig c = true) →
      ds.length < n → headDigit rest = false → takeDigits n (ds ++ rest) = none := by
  intro ds
  induction ds with
  | nil =>
    intro n rest _ hlen hrest
    cases n with
    | zero => simp at hlen
    | succ m =>
      cases rest with
      | nil => rfl
      | cons c t =>
        simp only [headDigit] at hrest
        simp [takeDigits, hrest]
  | cons d t ih =>
    intro n rest h hlen hrest
    cases n with
    | zero => simp at hlen
    | succ m =>
      have hd : isDig d = true := h d (by simp)
      have ht : takeDigits m (t ++ rest) = none :=
        ih m rest (fun c hc => h c (by simp [hc])) (by simpa using hlen) hrest
      simp [takeDigits, hd, ht]

/-! ## The phone matcher -/

theorem phoneHere_prevDigit {prev : Option Char} {cs : List Char}
    (h : prevDigit prev = true) : phoneHere prev cs = none := by
  simp [phoneHere, h]

theorem phoneHere_nil (prev : Option Char) : phoneHere prev [] = none := by
  rcases h : prevDigit prev with _ | _ <;>
    simp [phoneHere, h, stripChar, strip91, phoneWithPre, phoneCore, orElseO]

theorem phoneHere_headSafe {c : Char} (h1 : isDig c = false) (h2 : ¬(c = '+'))
    (prev : Option Char) (cs2 : List Char) : phoneHere prev (c :: cs2) = none := by
  rcases hp : prevDigit prev with _ | _
  · have h9 : ¬(c = '9') := not_nine_eq_of_not_isDig h1
    have hph : isPh c = false := isPh_false_of_not_isDig h1
    simp [phoneHere, hp, stripChar, strip91, phoneWithPre, phoneCore, h2, h9, hph, orElseO]
  · exact phoneHere_prevDigit hp

theorem isDig_X : isDig 'X' = false := by decide

theorem isPh_X : isPh 'X' = false := by decide

theorem isPh_plus : isPh '+' = false := by decide

theorem isPh_nine : isPh '9' = true := by decide

theorem isDig_nine : isDig '9' = true := by decide

theorem isDig_one : isDig '1' = true := by decide

theorem isSepCh_X : isSepCh 'X' = false := by decide

/-- The phone core cannot start at `a, b, 'X', ...`: the nine digits
after the leading one would have to cross the `'X'`. -/
theorem phoneCore_X3 (a b : Char) (rest : List Char) :
    phoneCore (a :: b :: 'X' :: rest) = none := by
  rcases hpa : isPh a with _ | _
  · simp [phoneCore, hpa]
  · have h9 : takeDigits 9 (b :: 'X' :: rest) = none := by
      rcases hdb : isDig b with _ | _
      · simpa using takeDigits_short [] 9 (b :: 'X' :: rest) (by simp)
          (by simp) (by simp [headDigit, hdb])
      · simpa using takeDigits_short [b] 9 ('X' :: rest) (by simp [hdb])
          (by simp) (by simp [headDigit, isDig_X])
    simp [phoneCore, hpa, h9]

theorem phoneCore_X2 (a : Char) (rest : List Char) :
    phoneCore (a :: 'X' :: rest) = none := by
  rcases hpa : isPh a with _ | _
  · simp [phoneCore, hpa]
  · have h9 : takeDigits 9 ('X' :: rest) = none := by
      simpa using takeDigits_short [] 9 ('X' :: rest) (by simp) (by simp)
        (by simp [headDigit, isDig_X])
    simp [phoneCore, hpa, h9]

theorem phoneCore_X1 (rest : List Char) : phoneCore ('X' :: rest) = none := by
  simp [phoneCore, isPh_X]

theorem phoneCore_len2 (a b : Char) : phoneCore [a, b] = none := by
  rcases hpa : isPh a with _ | _
  · simp [phoneCore, hpa]
  · have h9 : takeDigits 9 [b] = none := by
      rcases hdb : isDig b with _ | _
      · simpa using takeDigits_short [] 9 [b] (by simp) (by simp) (by simp [headDigit, hdb])
      · simpa using takeDigits_short [b] 9 [] (by simp [hdb]) (by simp) (by simp [headDigit])
    simp [phoneCore, hpa, h9]

theorem phoneCore_len1 (a : Char) : phoneCore [a] = none := by
  rcases hpa : isPh a with _ | _
  · simp [phoneCore, hpa]
  · have h9 : takeDigits 9 ([] : List Char) = none := by
      simpa using takeDigits_short [] 9 [] (by simp) (by simp) (by simp [headDigit])
    simp [phoneCore, hpa, h9]

theorem phoneCore_nil : phoneCore [] = none := rfl

theorem phoneHere_X3 (prev : Option Char) (a b : Char) (rest : List Char) :
    phoneHere prev (a :: b :: 'X' :: rest) = none := by
  rcases hp : prevDigit prev with _ | _
  · by_cases ha : a = '+'
    · subst ha
      by_cases hb : b = '9'
      · subst hb
        simp [phoneHere, hp, stripChar, strip91, phoneWithPre, orElseO, phoneCore_X3,
          phoneCore_X2]
      · simp [phoneHere, hp, stripChar, strip91, phoneWithPre, orElseO, hb, phoneCore_X3]
    · by_cases ha9 : a = '9'
      · subst ha9
        by_cases hb1 : b = '1'
        · subst hb1
          simp [phoneHere, hp, stripChar, strip91, phoneSepTail, phoneWithPre, orElseO,
            ha, phoneCore_X3, phoneCore_X1, isSepCh_X]
        · simp [phoneHere, hp, stripChar, strip91, phoneWithPre, orElseO, ha, hb1,
            phoneCore_X3]
      · simp [phoneHere, hp, stripChar, strip91, phoneWithPre, orElseO, ha, ha9,
          phoneCore_X3]
  · exact phoneHere_prevDigit hp

theorem phoneHere_X2 (prev : Option Char) (a : Char) (rest : List Char) :
    phoneHere prev (a :: 'X' :: rest) = none := by
  rcases hp : prevDigit prev with _ | _
  · by_cases ha : a = '+'
    · subst ha
      simp [phoneHere, hp, stripChar, strip91, phoneWithPre, orElseO, phoneCore_X2]
    · by_cases ha9 : a = '9'
      · subst ha9
        simp [phoneHere, hp, stripChar, strip91, phoneWithPre, orElseO, ha, phoneCore_X2]
      · simp [phoneHere, hp, stripChar, strip91, phoneWithPre, orElseO, ha, ha9,
          phoneCore_X2]
  · exact phoneHere_prevDigit hp

theorem phoneHere_X1 (prev : Option Char) (rest : List Char) :
    phoneHere prev ('X' :: rest) = none :=
  phoneHere_headSafe (by decide) (by decide) prev rest

theorem phoneHere_len2 (prev : Option Char) (a b : Char) :
    phoneHere prev [a, b] = none := by
  rcases hp : prevDigit prev with _ | _
  · by_cases ha : a = '+'
    · subst ha
      by_cases hb : b = '9'
      · subst hb
        simp [phoneHere, hp, stripChar, strip91, phoneWithPre, orElseO, phoneCore_len2,
          phoneCore_len1]
      · simp [phoneHere, hp, stripChar, strip91, phoneWithPre, orElseO, hb, phoneCore_len2]
    · by_cases ha9 : a = '9'
      · subst ha9
        by_cases hb1 : b = '1'
        · subst hb1
          simp [phoneHere, hp, stripChar, strip91, phoneSepTail, phoneWithPre,
            phoneCore_nil, orElseO, ha, phoneCore_len2]
        · simp [phoneHere, hp, stripChar, strip91, phoneWithPre, orElseO, ha, hb1,
            phoneCore_len2]
      · simp [phoneHere, hp, stripChar, strip91, phoneWithPre, orElseO, ha, ha9,
          phoneCore_len2]
  · exact phoneHere_prevDigit hp

theorem phoneHere_len1 (prev : Option Char) (a : Char) : phoneHere prev [a] = none := by
  rcases hp : prevDigit prev with _ | _
  · by_cases ha : a = '+'
    · subst ha
      simp [phoneHere, hp, stripChar, strip91, phoneWithPre, phoneCore_nil, orElseO,
        phoneCore_len1]
    · by_cases ha9 : a = '9'
      · subst ha9
        simp [phoneHere, hp, stripChar, strip91, phoneSepTail, phoneWithPre,
          phoneCore_nil, orElseO, ha, phoneCore_len1]
      · simp [phoneHere, hp, stripChar, strip91, phoneWithPre, orElseO, ha, ha9,
          phoneCore_len1]
  · exact phoneHere_prevDigit hp

/-- At a valid ten-digit phone value followed by a non-digit (with a
non-digit before it), the phone matcher matches exactly the value, with
the value itself as the capture. -/
theorem phoneHere_valid {prev : Option Char} {n rest : List Char}
    (hprev : prevDigit prev = false) (hlen : n.length = 10)
    (hdig : ∀ c ∈ n, isDig c = true) (hph : isPh (n.headD 'x') = true)
    (hrest : headDigit rest = false) :
    phoneHere prev (n ++ rest) = some (n, n, rest) := by
  rcases n with _ | ⟨d0, t⟩
  · simp at hlen
  rcases t with _ | ⟨d1, t8⟩
  · simp at hlen
  have hd0 : isDig d0 = true := hdig d0 (by simp)
  have hplus : ¬(d0 = '+') := not_plus_of_isDig hd0
  have hph0 : isPh d0 = true := by simpa using hph
  have ht8 : t8.length = 8 := by simp at hlen; omega
  have ht8d : ∀ c ∈ t8, isDig c = true := fun c hc =>
    hdig c (List.mem_cons_of_mem d0 (List.mem_cons_of_mem d1 hc))
  have htake : takeDigits 9 (d1 :: (t8 ++ rest)) = some (d1 :: t8, rest) := by
    have h := takeDigits_exact (d1 :: t8) rest
      (fun c hc => hdig c (List.mem_cons_of_mem d0 hc))
    simpa [ht8] using h
  have hcore : phoneCore (d0 :: d1 :: (t8 ++ rest)) = some (d0 :: d1 :: t8, rest) := by
    simp [phoneCore, hph0, htake, hrest]
  by_cases h90 : d0 = '9'
  · subst h90
    by_cases h11 : d1 = '1'
    · subst h11
      rcases t8 with _ | ⟨d2, t7⟩
      · simp at ht8
      simp only [List.cons_append] at hcore
      have hd2 : isDig d2 = true := ht8d d2 (by simp)
      have hs2 : isSepCh d2 = false := isSepCh_false_of_isDig hd2
      have ht7d : ∀ c ∈ t7, isDig c = true := fun c hc => ht8d c (by simp [hc])
      have ht7 : t7.length = 7 := by simp at ht8; omega
      have hc2 : phoneCore (d2 :: (t7 ++ rest)) = none := by
        rcases hp2 : isPh d2 with _ | _
        · simp [phoneCore, hp2]
        · have h7 : takeDigits 9 (t7 ++ rest) = none :=
            takeDigits_short t7 9 rest ht7d (by omega) hrest
          simp [phoneCore, hp2, h7]
      simp [phoneHere, hprev, stripChar, strip91, phoneSepTail, phoneWithPre, orElseO,
        hplus, hs2, hc2, hcore]
    · simp [phoneHere, hprev, stripChar, strip91, phoneSepTail, phoneWithPre, orElseO,
        hplus, h11, hcore]
  · simp [phoneHere, hprev, stripChar, strip91, phoneSepTail, phoneWithPre, orElseO,
      hplus, h90, hcore]

/-! ## The aadhar matcher: positions at which it cannot match -/

theorem aadharHere_prevDigit {prev : Option Char} {cs : List Char}
    (h : prevDigit prev = true) : aadharHere prev cs = none := by
  simp [aadharHere, h]

theorem takeDigits_four_X1 (rest : List Char) : takeDigits 4 ('X' :: rest) = none := by
  simpa using takeDigits_short [] 4 ('X' :: rest) (by simp) (by simp)
    (by simp [headDigit, isDig_X])

theorem takeDigits_four_X2 (a : Char) (rest : List Char) :
    takeDigits 4 (a :: 'X' :: rest) = none := by
  rcases hda : isDig a with _ | _
  · simpa using takeDigits_short [] 4 (a :: 'X' :: rest) (by simp) (by simp)
      (by simp [headDigit, hda])
  · simpa using takeDigits_short [a] 4 ('X' :: rest) (by simp [hda]) (by simp)
      (by simp [headDigit, isDig_X])

theorem takeDigits_four_X3 (a b : Char) (rest : List Char) :
    takeDigits 4 (a :: b :: 'X' :: rest) = none := by
  rcases hda : isDig a with _ | _
  · simpa using takeDigits_short [] 4 (a :: b :: 'X' :: rest) (by simp) (by simp)
      (by simp [headDigit, hda])
  · rcases hdb : isDig b with _ | _
    · simpa using takeDigits_short [a] 4 (b :: 'X' :: rest) (by simp [hda]) (by simp)
        (by simp [headDigit, hdb])
    · simpa using takeDigits_short [a, b] 4 ('X' :: rest) (by simp [hda, hdb]) (by simp)
        (by simp [headDigit, isDig_X])

theorem takeDigits_four_len2 (a b : Char) : takeDigits 4 [a, b] = none := by
  rcases hda : isDig a with _ | _
  · simpa using takeDigits_short [] 4 [a, b] (by simp) (by simp)
      (by simp [headDigit, hda])
  · rcases hdb : isDig b with _ | _
    · simpa using takeDigits_short [a] 4 [b] (by simp [hda]) (by simp)
        (by simp [headDigit, hdb])
    · simpa using takeDigits_short [a, b] 4 [] (by simp [hda, hdb]) (by simp)
        (by simp [headDigit])

theorem takeDigits_four_len1 (a : Char) : takeDigits 4 [a] = none := by
  rcases hda : isDig a with _ | _
  · simpa using takeDigits_short [] 4 [a] (by simp) (by simp) (by simp [headDigit, hda])
  · simpa using takeDigits_short [a] 4 [] (by simp [hda]) (by simp) (by simp [headDigit])

theorem aadharHere_X3 (prev : Option Char) (a b : Char) (rest : List Char) :
    aadharHere prev (a :: b :: 'X' :: rest) = none := by
  rcases hp : prevDigit prev with _ | _
  · simp [aadharHere, hp, takeDigits_four_X3]
  · exact aadharHere_prevDigit hp

theorem aadharHere_X2 (prev : Option Char) (a : Char) (rest : List Char) :
    aadharHere prev (a :: 'X' :: rest) = none := by
  rcases hp : prevDigit prev with _ | _
  · simp [aadharHere, hp, takeDigits_four_X2]
  · exact aadharHere_prevDigit hp

theorem aadharHere_X1 (prev : Option Char) (rest : List Char) :
    aadharHere prev ('X' :: rest) = none := by
  rcases hp : prevDigit prev with _ | _
  · simp [aadharHere, hp, takeDigits_four_X1]
  · exact aadharHere_prevDigit hp

theorem aadharHere_len2 (prev : Option Char) (a b : Char) :
    aadharHere prev [a, b] = none := by
  rcases hp : prevDigit prev with _ | _
  · simp [aadharHere, hp, takeDigits_four_len2]
  · exact aadharHere_prevDigit hp

theorem aadharHere_len1 (prev : Option Char) (a : Char) : aadharHere prev [a] = none := by
  rcases hp : prevDigit prev with _ | _
  · simp [aadharHere, hp, takeDigits_four_len1]
  · exact aadharHere_prevDigit hp

theorem aadharHere_nil (prev : Option Char) : aadharHere prev [] = none := by
  rcases hp : prevDigit prev with _ | _ <;> simp [aadharHere, hp, takeDigits]

/-! ## The passport matcher -/

theorem passportHere_nonLetter {c : Char} (h : isPassLetter c = false)
    (prev : Option Char) (rest : List Char) : passportHere prev (c :: rest) = none := by
  rcases hp : prevAlnum prev with _ | _ <;> simp [passportHere, hp, h]

theorem passportHere_digitHead {c : Char} (h : isDig c = true)
    (prev : Option Char) (rest : List Char) : passportHere prev (c :: rest) = none :=
  passportHere_nonLetter (isPassLetter_false_of_isDig h) prev rest

theorem passportHere_X (prev : Option Char) (rest : List Char) :
    passportHere prev ('X' :: rest) = none :=
  passportHere_nonLetter (by decide) prev rest

theorem passportHere_nil (prev : Option Char) : passportHere prev [] = none := by
  rcases hp : prevAlnum prev with _ | _ <;> simp [passportHere, hp]

/-! ## Matchers that need a character outside their class -/

theorem mem_of_mem_dropWhile (p : Char → Bool) :
    ∀ (l : List Char) (c : Char), c ∈ l.dropWhile p → c ∈ l := by
  intro l
  induction l with
  | nil => intro c h; simp [List.dropWhile] at h
  | cons x t ih =>
    intro c h
    rw [List.dropWhile] at h
    rcases hx : p x with _ | _
    · rw [hx] at h
      simpa using h
    · rw [hx] at h
      exact List.mem_cons_of_mem x (ih c h)

/-- If every character is in the handle class, there is no `'@'` for the
UPI pattern to anchor on. -/
theorem upiHere_allClass {cs : List Char} (h : ∀ c ∈ cs, isUpiName c = true)
    (prev : Option Char) : upiHere prev cs = none := by
  have hdrop : cs.dropWhile isUpiName = [] := by
    rcases hd : cs.dropWhile isUpiName with _ | ⟨c, t⟩
    · rfl
    · exfalso
      have hc : c ∈ cs := mem_of_mem_dropWhile isUpiName cs c (by simp [hd])
      have h1 : isUpiName c = true := h c hc
      have h2 := List.head?_dropWhile_not isUpiName cs
      rw [hd] at h2
      simp at h2
      simp [h1] at h2
  simp only [upiHere, hdrop]
  split <;> rfl

/-- Likewise for the email pattern and the local-part class. -/
theorem emailHere_allClass {cs : List Char} (h : ∀ c ∈ cs, isEmailLocal c = true)
    (prev : Option Char) : emailHere prev cs = none := by
  have hdrop : cs.dropWhile isEmailLocal = [] := by
    rcases hd : cs.dropWhile isEmailLocal with _ | ⟨c, t⟩
    · rfl
    · exfalso
      have hc : c ∈ cs := mem_of_mem_dropWhile isEmailLocal cs c (by simp [hd])
      have h1 : isEmailLocal c = true := h c hc
      have h2 := List.head?_dropWhile_not isEmailLocal cs
      rw [hd] at h2
      simp at h2
      simp [h1] at h2
  simp only [emailHere, hdrop]
  split <;> rfl

/-- If every character is a word character, no `'.'` can follow the
first octet, so the IP pattern cannot match. -/
theorem ipHere_allWord {cs : List Char} (h : ∀ c ∈ cs, isWordCh c = true)
    (prev : Option Char) : ipHere prev cs = none := by
  rcases hp : prevWord prev with _ | _
  · simp only [ipHere, hp, Bool.false_eq_true, if_false, octetRun]
    split
    · rcases hd : cs.dropWhile isDig with _ | ⟨c1, r1⟩
      · simp [hd]
      · have hc : c1 ∈ cs := mem_of_mem_dropWhile isDig cs c1 (by simp [hd])
        have h1 : isWordCh c1 = true := h c1 hc
        have hne : ¬(c1 = '.') := by
          intro he
          subst he
          revert h1
          decide
        simp [hd, hne]
    · rfl
  · simp [ipHere, hp]

/-! ## No pattern matches the redacted phone form `d0 d1 XXXXXX d8 d9` -/

theorem searchPhone_mask10 (d0 d1 d8 d9 : Char) :
    searchGo phoneHere none [d0, d1, 'X', 'X', 'X', 'X', 'X', 'X', d8, d9] = none := by
  simp [searchGo, orElseO, phoneHere_X3, phoneHere_X2, phoneHere_X1, phoneHere_len2,
    phoneHere_len1, phoneHere_nil]

theorem searchAadhar_mask10 (d0 d1 d8 d9 : Char) :
    searchGo aadharHere none [d0, d1, 'X', 'X', 'X', 'X', 'X', 'X', d8, d9] = none := by
  simp [searchGo, orElseO, aadharHere_X3, aadharHere_X2, aadharHere_X1, aadharHere_len2,
    aadharHere_len1, aadharHere_nil]

theorem searchPassport_mask10 {d0 d1 d8 d9 : Char} (hd0 : isDig d0 = true)
    (hd1 : isDig d1 = true) (hd8 : isDig d8 = true) (hd9 : isDig d9 = true) :
    searchGo passportHere none [d0, d1, 'X', 'X', 'X', 'X', 'X', 'X', d8, d9] = none := by
  simp [searchGo, orElseO, passportHere_digitHead hd0, passportHere_digitHead hd1,
    passportHere_digitHead hd8, passportHere_digitHead hd9, passportHere_X,
    passportHere_nil]

theorem mask10_allUpi {d0 d1 d8 d9 : Char} (hd0 : isDig d0 = true)
    (hd1 : isDig d1 = true) (hd8 : isDig d8 = true) (hd9 : isDig d9 = true) :
    ∀ c ∈ [d0, d1, 'X', 'X', 'X', 'X', 'X', 'X', d8, d9], isUpiName c = true := by
  intro c hc
  simp only [List.mem_cons, List.not_mem_nil, or_false] at hc
  rcases hc with h | h | h | h | h | h | h | h | h | h <;> subst h <;>
    first
      | exact isUpiName_of_isDig hd0
      | exact isUpiName_of_isDig hd1
      | exact isUpiName_of_isDig hd8
      | exact isUpiName_of_isDig hd9
      | decide

theorem mask10_allEmail {d0 d1 d8 d9 : Char} (hd0 : isDig d0 = true)
    (hd1 : isDig d1 = true) (hd8 : isDig d8 = true) (hd9 : isDig d9 = true) :
    ∀ c ∈ [d0, d1, 'X', 'X', 'X', 'X', 'X', 'X', d8, d9], isEmailLocal c = true := by
  intro c hc
  simp only [List.mem_cons, List.not_mem_nil, or_false] at hc
  rcases hc with h | h | h | h | h | h | h | h | h | h <;> subst h <;>
    first
      | exact isEmailLocal_of_isDig hd0
      | exact isEmailLocal_of_isDig hd1
      | exact isEmailLocal_of_isDig hd8
      | exact isEmailLocal_of_isDig hd9
      | decide

theorem mask10_allWord {d0 d1 d8 d9 : Char} (hd0 : isDig d0 = true)
    (hd1 : isDig d1 = true) (hd8 : isDig d8 = true) (hd9 : isDig d9 = true) :
    ∀ c ∈ [d0, d1, 'X', 'X', 'X', 'X', 'X', 'X', d8, d9], isWordCh c = true := by
  intro c hc
  simp only [List.mem_cons, List.not_mem_nil, or_false] at hc
  rcases hc with h | h | h | h | h | h | h | h | h | h <;> subst h <;>
    first
      | exact isWord_of_isDig hd0
      | exact isWord_of_isDig hd1
      | exact isWord_of_isDig hd8
      | exact isWord_of_isDig hd9
      | decide

theorem searchUpi_mask10 {d0 d1 d8 d9 : Char} (hd0 : isDig d0 = true)
    (hd1 : isDig d1 = true) (hd8 : isDig d8 = true) (hd9 : isDig d9 = true) :
    searchGo upiHere none [d0, d1, 'X', 'X', 'X', 'X', 'X', 'X', d8, d9] = none := by
  apply searchGo_none_of_allFail
  intro prev2 suf hsuf
  obtain ⟨pre, hpre⟩ := hsuf
  refine upiHere_allClass (fun c hc => ?_) prev2
  exact mask10_allUpi hd0 hd1 hd8 hd9 c (by rw [← hpre]; exact List.mem_append_right pre hc)

theorem searchEmail_mask10 {d0 d1 d8 d9 : Char} (hd0 : isDig d0 = true)
    (hd1 : isDig d1 = true) (hd8 : isDig d8 = true) (hd9 : isDig d9 = true) :
    searchGo emailHere none [d0, d1, 'X', 'X', 'X', 'X', 'X', 'X', d8, d9] = none := by
  apply searchGo_none_of_allFail
  intro prev2 suf hsuf
  obtain ⟨pre, hpre⟩ := hsuf
  refine emailHere_allClass (fun c hc => ?_) prev2
  exact mask10_allEmail hd0 hd1 hd8 hd9 c (by rw [← hpre]; exact List.mem_append_right pre hc)

theorem searchIp_mask10 {d0 d1 d8 d9 : Char} (hd0 : isDig d0 = true)
    (hd1 : isDig d1 = true) (hd8 : isDig d8 = true) (hd9 : isDig d9 = true) :
    searchGo ipHere none [d0, d1, 'X', 'X', 'X', 'X', 'X', 'X', d8, d9] = none := by
  apply searchGo_none_of_allFail
  intro prev2 suf hsuf
  obtain ⟨pre, hpre⟩ := hsuf
  refine ipHere_allWord (fun c hc => ?_) prev2
  exact mask10_allWord hd0 hd1 hd8 hd9 c (by rw [← hpre]; exact List.mem_append_right pre hc)

/-! ## Maskers are the identity where their pattern has no match -/

theorem mask_phone_id {s : String} (h : searchGo phoneHere none s.data = none) :
    mask_phone s = s := by
  rcases s with ⟨l⟩
  unfold mask_phone maskPhoneL
  rw [show String.data (String.mk l) = l from rfl] at h
  rw [h]

theorem mask_aadhar_id {s : String} (h : searchGo aadharHere none s.data = none) :
    mask_aadhar s = s := by
  rcases s with ⟨l⟩
  unfold mask_aadhar
  rw [subGo_id_of_searchNone (fun p cs hh => by simp [aadharSubM, hh]) _ _ _ h]

theorem mask_passport_id {s : String} (h : searchGo passportHere none s.data = none) :
    mask_passport s = s := by
  rcases s with ⟨l⟩
  unfold mask_passport
  rw [subGo_id_of_searchNone (fun p cs hh => by simp [passportSubM, hh]) _ _ _ h]

theorem mask_upi_id {s : String} (h : searchGo upiHere none s.data = none) :
    mask_upi s = s := by
  rcases s with ⟨l⟩
  unfold mask_upi
  rw [subGo_id_of_searchNone (fun p cs hh => by simp [upiSubM, hh]) _ _ _ h]

theorem mask_email_id {s : String} (h : searchGo emailHere none s.data = none) :
    mask_email s = s := by
  rcases s with ⟨l⟩
  unfold mask_email
  rw [subGo_id_of_searchNone (fun p cs hh => by simp [emailSubM, hh]) _ _ _ h]

theorem mask_ip_id {s : String} (h : searchGo ipHere none s.data = none) :
    mask_ip s = s := by
  rcases s with ⟨l⟩
  unfold mask_ip
  rw [subGo_id_of_searchNone (fun p cs hh => by simp [ipSubM, hh]) _ _ _ h]

/-- A value with no remaining occurrence of any of the six patterns is a
fixed point of the whole standalone sweep. -/
theorem sweepStr_id {s : String} (h : noMatchesB s = true) : sweepStr s = s := by
  simp only [noMatchesB, Bool.and_eq_true, Option.isNone_iff_eq_none] at h
  obtain ⟨⟨⟨⟨⟨h1, h2⟩, h3⟩, h4⟩, h5⟩, h6⟩ := h
  unfold sweepStr
  rw [mask_phone_id h1, mask_aadhar_id h2, mask_passport_id h3, mask_upi_id h4,
    mask_email_id h5, mask_ip_id h6]

/-! ## Record plumbing: updates, lookups, keys -/

theorem lookup_update_ne : ∀ (red : Record) (kk k : String) (v : Value), ¬(kk = k) →
    lookupVal (updateVal red kk v) k = lookupVal red k := by
  intro red
  induction red with
  | nil => intro kk k v _; rfl
  | cons kv t ih =>
    intro kk k v h
    have hfst : (if kv.1 = kk then (kv.1, v) else kv).1 = kv.1 := by split_ifs <;> rfl
    simp only [updateVal, List.map_cons, lookupVal, hfst]
    by_cases h2 : kv.1 = k
    · have h3 : ¬(k = kk) := fun hx => h hx.symm
      simp [h2, h3]
    · simp only [h2, if_false]
      simpa only [updateVal] using ih kk k v h

theorem lookup_update_self : ∀ (red : Record) (k : String) (v w : Value),
    lookupVal red k = some w → lookupVal (updateVal red k v) k = some v := by
  intro red
  induction red with
  | nil => intro k v w h; simp [lookupVal] at h
  | cons kv t ih =>
    intro k v w h
    have hfst : (if kv.1 = k then (kv.1, v) else kv).1 = kv.1 := by split_ifs <;> rfl
    by_cases h1 : kv.1 = k
    · simp [updateVal, lookupVal, h1]
    · simp only [lookupVal, h1, if_false] at h
      simp only [updateVal, List.map_cons, lookupVal, hfst, h1, if_false]
      simpa only [updateVal] using ih k v w h

theorem lookup_append_notleft : ∀ (pre rest : Record) (k : String),
    (∀ kv ∈ pre, ¬(kv.1 = k)) → lookupVal (pre ++ rest) k = lookupVal rest k := by
  intro pre
  induction pre with
  | nil => intro rest k _; rfl
  | cons kv t ih =>
    intro rest k h
    have h1 : ¬(kv.1 = k) := h kv (by simp)
    simp only [List.cons_append, lookupVal, h1, if_false]
    exact ih rest k fun kv2 hm => h kv2 (by simp [hm])

theorem lookup_cons_self (kv : String × Value) (rest : Record) :
    lookupVal (kv :: rest) kv.1 = some kv.2 := by
  simp [lookupVal]

theorem keys_update (red : Record) (kk : String) (v : Value) :
    (updateVal red kk v).map Prod.fst = red.map Prod.fst := by
  induction red with
  | nil => rfl
  | cons kv t ih =>
    by_cases h1 : kv.1 = kk <;> simp [updateVal, h1] <;> simpa [updateVal] using ih

theorem keys_sweepRec (red : Record) : (sweepRec red).map Prod.fst = red.map Prod.fst := by
  induction red with
  | nil => rfl
  | cons kv t ih => simpa [sweepRec] using ih

theorem lookup_sweepRec : ∀ (red : Record) (k : String),
    lookupVal (sweepRec red) k = Option.map sweepVal (lookupVal red k) := by
  intro red
  induction red with
  | nil => intro k; rfl
  | cons kv t ih =>
    intro k
    by_cases h1 : kv.1 = k
    · simp [sweepRec, lookupVal, h1]
    · simp only [sweepRec, List.map_cons, lookupVal, h1, if_false]
      exact ih k

/-! ## The classification fold -/

theorem detClassify_append : ∀ (l1 l2 : List (String × Value)) (st : DetSt),
    detClassify (l1 ++ l2) st = detClassify l2 (detClassify l1 st) := by
  intro l1
  induction l1 with
  | nil => intro l2 st; rfl
  | cons kv t ih => intro l2 st; simp [detClassify, ih]

theorem classStep_standalone_mono {kv : String × Value} {st : DetSt}
    (h : st.standalone = true) : (classStep kv st).standalone = true := by
  simp only [classStep]
  split_ifs <;> first | rfl | exact h

theorem detClassify_standalone_mono : ∀ (fields : List (String × Value)) (st : DetSt),
    st.standalone = true → (detClassify fields st).standalone = true := by
  intro fields
  induction fields with
  | nil => intro st h; exact h
  | cons kv t ih => intro st h; exact ih (classStep kv st) (classStep_standalone_mono h)

theorem detClassify_red_of_not_standalone : ∀ (fields : List (String × Value)) (st : DetSt),
    (detClassify fields st).standalone = false →
    (detClassify fields st).red = st.red ∧ st.standalone = false := by
  intro fields
  induction fields with
  | nil => intro st h; exact ⟨rfl, h⟩
  | cons kv t ih =>
    intro st h
    have hs : (classStep kv st).standalone = false := by
      rcases hc : (classStep kv st).standalone with _ | _
      · rfl
      · rw [detClassify, detClassify_standalone_mono t (classStep kv st) hc] at h
        exact absurd h (by simp)
    have hstep : classStep kv st = ⟨st.standalone, unionSigs st.sigs
        (comboSigsOf (asciiLower kv.1) (svalOfA kv.2)), st.red⟩ := by
      simp only [classStep] at hs ⊢
      split_ifs at hs ⊢ <;> simp_all
    obtain ⟨h1, h2⟩ := ih (classStep kv st) h
    rw [hstep] at h1 h2
    exact ⟨by rw [detClassify, hstep] at h ⊢; exact h1, h2⟩

theorem classStep_sigs (kv : String × Value) (st : DetSt) :
    (classStep kv st).sigs =
      if fieldStandalone kv = true then st.sigs
      else unionSigs st.sigs (comboSigsOf (asciiLower kv.1) (svalOfA kv.2)) := by
  simp only [classStep, fieldStandalone]
  split_ifs with h1 h2 h3 h4 h5 <;> simp_all

theorem detClassify_sigs : ∀ (fields : List (String × Value)) (st : DetSt),
    (detClassify fields st).sigs =
      fields.foldl
        (fun s kv =>
          if fieldStandalone kv = true then s
          else unionSigs s (comboSigsOf (asciiLower kv.1) (svalOfA kv.2)))
        st.sigs := by
  intro fields
  induction fields with
  | nil => intro st; rfl
  | cons kv t ih =>
    intro st
    rw [detClassify, ih (classStep kv st), List.foldl_cons, classStep_sigs]

theorem classStep_keys (kv : String × Value) (st : DetSt) :
    (classStep kv st).red.map Prod.fst = st.red.map Prod.fst := by
  simp only [classStep]
  split_ifs <;> simp [keys_update]

theorem detClassify_keys : ∀ (fields : List (String × Value)) (st : DetSt),
    (detClassify fields st).red.map Prod.fst = st.red.map Prod.fst := by
  intro fields
  induction fields with
  | nil => intro st; rfl
  | cons kv t ih =>
    intro st
    rw [detClassify, ih (classStep kv st), classStep_keys]

theorem classStep_lookup_other {kv : String × Value} {st : DetSt} {k : String}
    (h : ¬(kv.1 = k)) : lookupVal (classStep kv st).red k = lookupVal st.red k := by
  simp only [classStep]
  split_ifs <;> first | rfl | exact lookup_update_ne st.red kv.1 k _ h

theorem detClassify_lookup_other : ∀ (fields : List (String × Value)) (st : DetSt)
    (k : String), (∀ kv ∈ fields, ¬(kv.1 = k)) →
    lookupVal (detClassify fields st).red k = lookupVal st.red k := by
  intro fields
  induction fields with
  | nil => intro st k _; rfl
  | cons kv t ih =>
    intro st k h
    rw [detClassify, ih (classStep kv st) k fun kv2 hm => h kv2 (by simp [hm]),
      classStep_lookup_other (h kv (by simp))]

/-! ## The combinatorial pass -/

theorem detCombo_append : ∀ (l1 l2 : List (String × Value)) (red : Record),
    detCombo (l1 ++ l2) red = detCombo l2 (detCombo l1 red) := by
  intro l1
  induction l1 with
  | nil => intro l2 red; rfl
  | cons kv t ih => intro l2 red; simp [detCombo, ih]

theorem comboStep_lookup_other {kv : String × Value} {red : Record} {k : String}
    (h : ¬(kv.1 = k)) : lookupVal (comboStep kv red) k = lookupVal red k := by
  simp only [comboStep]
  split_ifs <;> first | rfl | exact lookup_update_ne red kv.1 k _ h

theorem detCombo_lookup_other : ∀ (fields : List (String × Value)) (red : Record)
    (k : String), (∀ kv ∈ fields, ¬(kv.1 = k)) →
    lookupVal (detCombo fields red) k = lookupVal red k := by
  intro fields
  induction fields with
  | nil => intro red k _; rfl
  | cons kv t ih =>
    intro red k h
    rw [detCombo, ih (comboStep kv red) k fun kv2 hm => h kv2 (by simp [hm]),
      comboStep_lookup_other (h kv (by simp))]

theorem comboStep_keys (kv : String × Value) (red : Record) :
    (comboStep kv red).map Prod.fst = red.map Prod.fst := by
  simp only [comboStep]
  split_ifs <;> simp [keys_update]

theorem detCombo_keys : ∀ (fields : List (String × Value)) (red : Record),
    (detCombo fields red).map Prod.fst = red.map Prod.fst := by
  intro fields
  induction fields with
  | nil => intro red; rfl
  | cons kv t ih =>
    intro red
    rw [detCombo, ih (comboStep kv red), comboStep_keys]

/-! ## The scorer -/

theorem scoreVerdict_true (s : CSignals) : scoreVerdict s true = true := by
  unfold scoreVerdict
  split_ifs <;> rfl

theorem standalone_false_of_verdict_false {s : CSignals} {st : Bool}
    (h : scoreVerdict s st = false) : st = false := by
  rcases hst : st with _ | _
  · rfl
  · rw [hst, scoreVerdict_true] at h
    exact absurd h (by simp)

/-! # Claims -/

/-- C2: the verdict policy of `detect_and_redact` coincides with the
specified scorer — with at least two distinct combinatorial signals but
none of name/email/address the verdict falls back to the standalone flag,
with an identity-bearing signal among them it is `true`, and with fewer
than two signals it is the standalone flag; in particular a record with
only a device id and an IP address is not PII and is returned with all
fields unmasked. -/
theorem C2_verdict_policy :
    (∀ (n e a d i st : Bool), scoreVerdict ⟨n, e, a, d, i⟩ st = verdictSpec ⟨n, e, a, d, i⟩ st) ∧
      detect_and_redact
          [("device_id", Value.vstr "dev-12345678"), ("ip_address", Value.vstr "192.168.1.10")] =
        (false,
          [("device_id", Value.vstr "dev-12345678"), ("ip_address", Value.vstr "192.168.1.10")]) := by
  constructor
  · decide
  · decide

/-- C3: whenever `detect_and_redact` returns a not-PII verdict, the
redacted record it returns is the input record, unchanged. -/
theorem C3_not_pii_returns_input (record : Record)
    (h : (detect_and_redact record).1 = false) : (detect_and_redact record).2 = record := by
  have hpii : scoreVerdict (detClassify record ⟨false, noSigs, record⟩).sigs
      (detClassify record ⟨false, noSigs, record⟩).standalone = false := by
    simpa [detect_and_redact] using h
  have hst := standalone_false_of_verdict_false hpii
  have hred := (detClassify_red_of_not_standalone record ⟨false, noSigs, record⟩ hst).1
  simp [detect_and_redact, hpii, hred]

/-- Witness for C3 at a concrete non-PII record. -/
theorem C3_witness :
    (detect_and_redact [("note", Value.vstr "hello")]).2 = [("note", Value.vstr "hello")] :=
  C3_not_pii_returns_input _ (by decide)

/-- C10: the redacted mapping returned by `detect_and_redact` always has
exactly the keys of the input record, in the same order. -/
theorem C10_keys_preserved (record : Record) :
    ((detect_and_redact record).2).map Prod.fst = record.map Prod.fst := by
  simp only [detect_and_redact]
  split_ifs <;>
    simp [keys_sweepRec, detCombo_keys, detClassify_keys]

/-- C1 counterexample: a field whose value matches a standalone category
(the UPI pattern matches `"ab@xy.co"`) contributes none of its
combinatorial signals — its email signal is not in the record's signal
set, against the claim that collection is independent of standalone
matches. -/
theorem C1_counterexample :
    contains_email "ab@xy.co" = true ∧ contains_upi "ab@xy.co" = true ∧
      sigLeB (comboSigsOf (asciiLower "note") (svalOfA (Value.vstr "ab@xy.co")))
        (detClassify [("note", Value.vstr "ab@xy.co")]
          ⟨false, noSigs, [("note", Value.vstr "ab@xy.co")]⟩).sigs = false := by
  decide

/-- C1 (amended): combinatorial signals are collected from exactly the
fields that did not match a standalone category; a field with a
standalone match is skipped by the `continue` and contributes nothing. -/
theorem C1_amended_collection (record : Record) :
    (detClassify record ⟨false, noSigs, record⟩).sigs = comboSignalsAmended record := by
  rw [detClassify_sigs]
  rfl

/-- C5 counterexample: for the record with name `"Ravi Kumar"` and email
`"ravi.kumar@example.com"`, the signal set is only the name signal (the
email field matched the standalone UPI pattern first), so the
combinatorial score is 1, not at least 2, and the email signal is
absent. -/
theorem C5_counterexample :
    (detClassify
        [("name", Value.vstr "Ravi Kumar"), ("email", Value.vstr "ravi.kumar@example.com")]
        ⟨false, noSigs,
          [("name", Value.vstr "Ravi Kumar"),
            ("email", Value.vstr "ravi.kumar@example.com")]⟩).sigs.email = false ∧
      sigCount (detClassify
        [("name", Value.vstr "Ravi Kumar"), ("email", Value.vstr "ravi.kumar@example.com")]
        ⟨false, noSigs,
          [("name", Value.vstr "Ravi Kumar"),
            ("email", Value.vstr "ravi.kumar@example.com")]⟩).sigs = 1 := by
  decide

/-- C5 (amended): the record is classified PII via the standalone path —
the email value matches the UPI pattern, setting the standalone flag —
with signal set containing only the name signal (score 1); the final
output nevertheless masks the name to its initials form and the email to
the partial local-part mask. -/
theorem C5_amended_behavior :
    detect_and_redact
        [("name", Value.vstr "Ravi Kumar"), ("email", Value.vstr "ravi.kumar@example.com")] =
      (true,
        [("name", Value.vstr "RXXX KXXX"), ("email", Value.vstr "ra********@example.com")]) ∧
      contains_upi "ravi.kumar@example.com" = true ∧
      (detClassify
        [("name", Value.vstr "Ravi Kumar"), ("email", Value.vstr "ravi.kumar@example.com")]
        ⟨false, noSigs,
          [("name", Value.vstr "Ravi Kumar"),
            ("email", Value.vstr "ravi.kumar@example.com")]⟩).standalone = true := by
  refine ⟨by decide, by decide, by decide⟩

/-- C9: a key on the numeric-identifier deny-list is never classified as
a phone, whatever its value looks like; in particular the record
`customer_id: "9876543210"` gets verdict `false` and is returned
unchanged. -/
theorem C9_deny_list (k v : String) (hk : SAFE_NUMERIC_ID_KEYS.contains k = true) :
    is_phone_value k v = false ∧
      detect_and_redact [("customer_id", Value.vstr "9876543210")] =
        (false, [("customer_id", Value.vstr "9876543210")]) := by
  constructor
  · have hk2 : k ∈ SAFE_NUMERIC_ID_KEYS := by simpa using hk
    simp [is_phone_value, hk2]
  · decide

/-- Witness for C9 at the deny-listed key `customer_id`. -/
theorem C9_witness :
    is_phone_value "customer_id" "9876543210" = false ∧
      detect_and_redact [("customer_id", Value.vstr "9876543210")] =
        (false, [("customer_id", Value.vstr "9876543210")]) :=
  C9_deny_list "customer_id" "9876543210" (by decide)

/-- C4 counterexample: the standalone sweep is not idempotent — on
`"ab@cd@ef"` the first sweep masks `ab@cd` to `ab*b@cd`, after which the
second sweep finds and masks the newly exposed `cd@ef`. -/
theorem C4_counterexample :
    sweepRec (sweepRec [("note", Value.vstr "ab@cd@ef")]) ≠
      sweepRec [("note", Value.vstr "ab@cd@ef")] := by
  decide

theorem sweepRec_id_of_clean : ∀ (R : Record),
    (∀ kv ∈ R, (match kv.2 with | Value.vstr s => noMatchesB s | _ => true) = true) →
    sweepRec R = R := by
  intro R
  induction R with
  | nil => intro _; rfl
  | cons kv t ih =>
    intro h
    have hkv : (kv.1, sweepVal kv.2) = kv := by
      rcases kv with ⟨k, v⟩
      cases v with
      | vstr s =>
        have hs : noMatchesB s = true := by simpa using h (k, Value.vstr s) (by simp)
        simp [sweepVal, sweepStr_id hs]
      | vjson j r => rfl
      | vother r => rfl
    simp only [sweepRec, List.map_cons, hkv]
    have := ih fun kv2 hm => h kv2 (by simp [hm])
    simpa [sweepRec] using this

/-- C4 (amended): the standalone sweep is idempotent on every record
whose swept string fields no longer match any of the six source
patterns; re-masking can differ only when masking exposes a fresh match
(as in the counterexample). -/
theorem C4_amended_idempotence (red : Record) (h : sweptCleanB red = true) :
    sweepRec (sweepRec red) = sweepRec red := by
  simp only [sweptCleanB, List.all_eq_true] at h
  exact sweepRec_id_of_clean (sweepRec red) h

/-- Witness for C4 at a concrete record whose sweep output is clean. -/
theorem C4_witness :
    sweepRec (sweepRec [("phone", Value.vstr "9876543210")]) =
      sweepRec [("phone", Value.vstr "9876543210")] :=
  C4_amended_idempotence _ (by decide)

/-- C8: every masker is a total function that leaves its input unchanged
when its pattern is absent, and every pattern predicate and masker is
defined (with a `false` or identity result) on the empty string; IP
octet validation yields `false` rather than an error. -/
theorem C8_totality :
    (∀ v : String, searchGo phoneHere none v.data = none → mask_phone v = v) ∧
    (∀ v : String, searchGo aadharHere none v.data = none → mask_aadhar v = v) ∧
    (∀ v : String, searchGo passportHere none v.data = none → mask_passport v = v) ∧
    (∀ v : String, searchGo upiHere none v.data = none → mask_upi v = v) ∧
    (∀ v : String, searchGo emailHere none v.data = none → mask_email v = v) ∧
    (∀ v : String, searchGo ipHere none v.data = none → mask_ip v = v) ∧
    (mask_phone "" = "" ∧ mask_aadhar "" = "" ∧ mask_passport "" = "" ∧ mask_upi "" = "" ∧
      mask_email "" = "" ∧ mask_ip "" = "" ∧ mask_name_like "" = "") ∧
    (contains_aadhar "" = false ∧ contains_passport "" = false ∧ contains_upi "" = false ∧
      contains_email "" = false ∧ contains_ip "" = false ∧ looks_like_full_name "" = false ∧
      contains_address "" = false ∧ is_phone_value "x" "" = false) := by
  refine ⟨fun v h => mask_phone_id h, fun v h => mask_aadhar_id h,
    fun v h => mask_passport_id h, fun v h => mask_upi_id h, fun v h => mask_email_id h,
    fun v h => mask_ip_id h, by decide, by decide⟩

/-- Witness for C8 on a Unicode string with no pattern occurrence. -/
theorem C8_witness :
    mask_phone "héllo wörld" = "héllo wörld" ∧ mask_upi "héllo wörld" = "héllo wörld" ∧
      mask_ip "héllo wörld" = "héllo wörld" :=
  ⟨C8_totality.1 "héllo wörld" (by decide),
    C8_totality.2.2.2.1 "héllo wörld" (by decide),
    C8_totality.2.2.2.2.2.1 "héllo wörld" (by decide)⟩

/-! ## C6 support: walking phone-safe context around two phone values -/

theorem data_append (s t : String) : (s ++ t).data = s.data ++ t.data := by
  rcases s with ⟨l1⟩
  rcases t with ⟨l2⟩
  rfl

theorem phoneSafe_spec {s : String} (h : phoneSafeB s = true) :
    ∀ x ∈ s.data, isDig x = false ∧ ¬(x = '+') := by
  simp only [phoneSafeB, List.all_eq_true, Bool.and_eq_true, Bool.not_eq_true',
    decide_eq_false_iff_not] at h
  exact h

theorem validPhone_spec {n : String} (h : validPhoneB n = true) :
    n.data.length = 10 ∧ (∀ c ∈ n.data, isDig c = true) ∧ isPh (n.data.headD 'x') = true := by
  simp only [validPhoneB, Bool.and_eq_true, decide_eq_true_eq, List.all_eq_true] at h
  exact ⟨h.1.1, h.1.2, h.2⟩

theorem prevEnd_ne_nil (l : List Char) (prev : Option Char) (h : l ≠ []) :
    ∃ c, c ∈ l ∧ prevEnd l prev = some c := by
  rcases hg : l.getLast? with _ | c
  · exact absurd hg (by simpa [Option.isSome_iff_ne_none] using List.getLast?_isSome.mpr h)
  · exact ⟨c, mem_of_getLastQ l c hg, by simp [prevEnd, hg]⟩

theorem headDigit_safe {l : List Char} (h : ∀ x ∈ l, isDig x = false ∧ ¬(x = '+')) :
    headDigit l = false := by
  cases l with
  | nil => rfl
  | cons x t => simpa [headDigit] using (h x (by simp)).1

theorem prevDigit_prevEnd_safe {l : List Char} {prev : Option Char}
    (hprev : prevDigit prev = false) (h : ∀ x ∈ l, isDig x = false ∧ ¬(x = '+')) :
    prevDigit (prevEnd l prev) = false := by
  rcases prevEnd_cases l prev with he | ⟨c, hm, he⟩
  · rw [he]
    exact hprev
  · rw [he]
    simpa [prevDigit] using (h c hm).1

theorem phoneSubM_headSafe (rep : List Char) {x : Char}
    (hx : isDig x = false ∧ ¬(x = '+')) (prev : Option Char) (cs2 : List Char) :
    phoneSubM rep prev (x :: cs2) = none := by
  simp [phoneSubM, phoneHere_headSafe hx.1 hx.2]

theorem phoneSubM_nil (rep : List Char) (prev : Option Char) :
    phoneSubM rep prev [] = none := by
  simp [phoneSubM, phoneHere_nil]

theorem data_mk (l : List Char) : (String.mk l).data = l := rfl

/-- The head-safety predicate for the phone scanner. -/
def PSafe (c : Char) : Prop := isDig c = false ∧ ¬(c = '+')

theorem phoneHere_PSafe : ∀ (prev : Option Char) (c : Char) (cs2 : List Char), PSafe c →
    phoneHere prev (c :: cs2) = none := fun prev c cs2 h =>
  phoneHere_headSafe h.1 h.2 prev cs2

theorem phoneSubM_PSafe (rep : List Char) :
    ∀ (prev : Option Char) (c : Char) (cs2 : List Char), PSafe c →
      phoneSubM rep prev (c :: cs2) = none := fun prev c cs2 h =>
  phoneSubM_headSafe rep h prev cs2

/-- C6 (amended): `mask_phone` performs a global replacement, but every
occurrence is replaced with the mask computed from the FIRST occurrence's
ten digits; the surrounding text (free of digits and of `'+'`) is
preserved verbatim. -/
theorem C6_amended_global_replace (a b c n1 n2 : String)
    (ha : phoneSafeB a = true) (hb : phoneSafeB b = true) (hbne : b.data.isEmpty = false)
    (hc : phoneSafeB c = true) (hv1 : validPhoneB n1 = true) (hv2 : validPhoneB n2 = true) :
    mask_phone (a ++ n1 ++ b ++ n2 ++ c) =
      a ++ phoneMaskOf n1 ++ b ++ phoneMaskOf n1 ++ c := by
  have hsa : ∀ x ∈ a.data, PSafe x := phoneSafe_spec ha
  have hsb : ∀ x ∈ b.data, PSafe x := phoneSafe_spec hb
  have hsc : ∀ x ∈ c.data, PSafe x := phoneSafe_spec hc
  obtain ⟨hl1, hd1, hp1⟩ := validPhone_spec hv1
  obtain ⟨hl2, hd2, hp2⟩ := validPhone_spec hv2
  have hBne : b.data ≠ [] := by
    intro hx
    rw [hx] at hbne
    exact absurd hbne (by simp)
  have hdata : (a ++ n1 ++ b ++ n2 ++ c).data =
      a.data ++ (n1.data ++ (b.data ++ (n2.data ++ c.data))) := by
    simp [data_append, List.append_assoc]
  have hprev1 : prevDigit (prevEnd a.data none) = false :=
    prevDigit_prevEnd_safe rfl fun x hx => hsa x hx
  have hhead2 : headDigit (b.data ++ (n2.data ++ c.data)) = false := by
    rcases hBl : b.data with _ | ⟨x, t⟩
    · exact absurd hBl hBne
    · have hx : PSafe x := hsb x (by rw [hBl]; simp)
      simpa [headDigit] using hx.1
  have hm1 : phoneHere (prevEnd a.data none)
      (n1.data ++ (b.data ++ (n2.data ++ c.data))) =
        some (n1.data, n1.data, b.data ++ (n2.data ++ c.data)) :=
    phoneHere_valid hprev1 hl1 hd1 hp1 hhead2
  have hsearch : searchGo phoneHere none
      (a.data ++ (n1.data ++ (b.data ++ (n2.data ++ c.data)))) =
        some (n1.data, n1.data, b.data ++ (n2.data ++ c.data)) := by
    rw [searchGo_skip phoneHere_PSafe a.data _ none hsa]
    exact searchGo_of_match hm1
  obtain ⟨xB, hxBmem, hxB⟩ := prevEnd_ne_nil b.data (some (n1.data.getLastD 'X')) hBne
  have hprev2 : prevDigit (prevEnd b.data (some (n1.data.getLastD 'X'))) = false := by
    rw [hxB]
    simpa [prevDigit] using (hsb xB hxBmem).1
  have hm2 : phoneHere (prevEnd b.data (some (n1.data.getLastD 'X')))
      (n2.data ++ c.data) = some (n2.data, n2.data, c.data) :=
    phoneHere_valid hprev2 hl2 hd2 hp2 (headDigit_safe fun x hx => hsc x hx)
  -- the substitution scan
  have hmask : ∀ F : Nat,
      F = a.data.length + (10 + (b.data.length + (10 + c.data.length))) →
      subGo (phoneSubM (phoneMaskL n1.data)) F none
          (a.data ++ (n1.data ++ (b.data ++ (n2.data ++ c.data)))) =
        a.data ++ (phoneMaskL n1.data ++ (b.data ++ (phoneMaskL n1.data ++ c.data))) := by
    intro F hF
    have hM1 : phoneSubM (phoneMaskL n1.data) (prevEnd a.data none)
        (n1.data ++ (b.data ++ (n2.data ++ c.data))) =
          some (phoneMaskL n1.data, n1.data.getLastD 'X',
            b.data ++ (n2.data ++ c.data)) := by
      unfold phoneSubM
      rw [hm1]
      rfl
    have hM2 : phoneSubM (phoneMaskL n1.data)
        (prevEnd b.data (some (n1.data.getLastD 'X'))) (n2.data ++ c.data) =
          some (phoneMaskL n1.data, n2.data.getLastD 'X', c.data) := by
      unfold phoneSubM
      rw [hm2]
      rfl
    rw [subGo_skip (phoneSubM_PSafe _) a.data _ none F hsa (by omega)]
    rw [subGo_match hM1 (by omega)]
    rw [subGo_skip (phoneSubM_PSafe _) b.data _ _ _ hsb (by omega)]
    rw [subGo_match hM2 (by omega)]
    have e5 := subGo_skip (phoneSubM_PSafe (phoneMaskL n1.data)) c.data []
      (some (n2.data.getLastD 'X')) (F - a.data.length - 1 - b.data.length - 1) hsc (by omega)
    rw [List.append_nil] at e5
    rw [e5, subGo_nil (phoneSubM_nil _ _)]
    simp
  have hlenF : (a.data ++ (n1.data ++ (b.data ++ (n2.data ++ c.data)))).length =
      a.data.length + (10 + (b.data.length + (10 + c.data.length))) := by
    simp [hl1, hl2]
  apply String.ext
  show (String.mk (maskPhoneL (a ++ n1 ++ b ++ n2 ++ c).data)).data = _
  rw [data_mk]
  unfold maskPhoneL
  rw [hdata]
  simp only [hsearch]
  rw [hmask _ hlenF]
  simp [data_append, phoneMaskOf, data_mk, List.append_assoc]

/-- C6 counterexample: with two phone numbers in one value, both
occurrences are replaced by the mask of the first number's digits — the
second occurrence does not show its own first two and last two digits. -/
theorem C6_counterexample :
    mask_phone "9876543210 6123456789" = "98XXXXXX10 98XXXXXX10" ∧
      mask_phone "9876543210 6123456789" ≠ "98XXXXXX10 61XXXXXX89" := by
  constructor
  · decide
  · decide

/-- Witness for C6 at a concrete two-occurrence value. -/
theorem C6_witness :
    mask_phone "Call 9876543210 or 6123456789 now" =
      "Call " ++ phoneMaskOf "9876543210" ++ " or " ++ phoneMaskOf "9876543210" ++ " now" :=
  C6_amended_global_replace "Call " " or " " now" "9876543210" "6123456789"
    (by decide) (by decide) (by decide) (by decide) (by decide) (by decide)

/-! ## C7 support -/

theorem exists_ten : ∀ (l : List Char), l.length = 10 →
    ∃ d0 d1 d2 d3 d4 d5 d6 d7 d8 d9, l = [d0, d1, d2, d3, d4, d5, d6, d7, d8, d9] := by
  intro l h
  rcases l with _ | ⟨d0, l⟩
  · simp at h
  rcases l with _ | ⟨d1, l⟩
  · simp at h
  rcases l with _ | ⟨d2, l⟩
  · simp at h
  rcases l with _ | ⟨d3, l⟩
  · simp at h
  rcases l with _ | ⟨d4, l⟩
  · simp at h
  rcases l with _ | ⟨d5, l⟩
  · simp at h
  rcases l with _ | ⟨d6, l⟩
  · simp at h
  rcases l with _ | ⟨d7, l⟩
  · simp at h
  rcases l with _ | ⟨d8, l⟩
  · simp at h
  rcases l with _ | ⟨d9, l⟩
  · simp at h
  rcases l with _ | ⟨d10, l⟩
  · exact ⟨d0, d1, d2, d3, d4, d5, d6, d7, d8, d9, rfl⟩
  · simp at h

/-- A whole-string valid phone is masked to its first two digits, six
`X`, and last two digits. -/
theorem mask_phone_valid {n : String} (hv : validPhoneB n = true) :
    mask_phone n = phoneMaskOf n := by
  obtain ⟨hl, hd, hp⟩ := validPhone_spec hv
  have hm : phoneHere none (n.data ++ []) = some (n.data, n.data, []) :=
    phoneHere_valid rfl hl hd hp rfl
  rw [List.append_nil] at hm
  have hsearch : searchGo phoneHere none n.data = some (n.data, n.data, []) :=
    searchGo_of_match hm
  have hM : phoneSubM (phoneMaskL n.data) none n.data =
      some (phoneMaskL n.data, n.data.getLastD 'X', []) := by
    unfold phoneSubM
    rw [hm]
    rfl
  apply String.ext
  show (String.mk (maskPhoneL n.data)).data = (String.mk (phoneMaskL n.data)).data
  rw [data_mk, data_mk]
  unfold maskPhoneL
  simp only [hsearch]
  rw [subGo_match hM (by omega)]
  rw [subGo_nil (phoneSubM_nil _ _)]
  simp

theorem noMatches_mask10 {d0 d1 d8 d9 : Char} (hd0 : isDig d0 = true)
    (hd1 : isDig d1 = true) (hd8 : isDig d8 = true) (hd9 : isDig d9 = true) :
    noMatchesB (String.mk [d0, d1, 'X', 'X', 'X', 'X', 'X', 'X', d8, d9]) = true := by
  unfold noMatchesB
  rw [data_mk]
  rw [searchPhone_mask10, searchAadhar_mask10, searchPassport_mask10 hd0 hd1 hd8 hd9,
    searchUpi_mask10 hd0 hd1 hd8 hd9, searchEmail_mask10 hd0 hd1 hd8 hd9,
    searchIp_mask10 hd0 hd1 hd8 hd9]
  rfl

/-- The masked phone form is a fixed point of the standalone sweep. -/
theorem sweepStr_phoneMask {n : String} (hv : validPhoneB n = true) :
    sweepStr (phoneMaskOf n) = phoneMaskOf n := by
  obtain ⟨hl, hd, _⟩ := validPhone_spec hv
  obtain ⟨d0, d1, d2, d3, d4, d5, d6, d7, d8, d9, he⟩ := exists_ten n.data hl
  have hd0 : isDig d0 = true := hd d0 (by rw [he]; simp)
  have hd1 : isDig d1 = true := hd d1 (by rw [he]; simp)
  have hd8 : isDig d8 = true := hd d8 (by rw [he]; simp)
  have hd9 : isDig d9 = true := hd d9 (by rw [he]; simp)
  have hmask : phoneMaskOf n = String.mk [d0, d1, 'X', 'X', 'X', 'X', 'X', 'X', d8, d9] := by
    unfold phoneMaskOf
    rw [he]
    rfl
  rw [hmask]
  exact sweepStr_id (noMatches_mask10 hd0 hd1 hd8 hd9)

theorem phoneKey_facts {lk : String} (h : lk ∈ PHONE_LIKE_KEYS) :
    SAFE_NUMERIC_ID_KEYS.contains lk = false ∧
      PHONE_LIKE_KEYS.contains (asciiLower lk) = true ∧
      NAME_KEYS.contains lk = false ∧ ¬(lk = "first_name") ∧ ¬(lk = "last_name") ∧
      ADDRESS_KEYS.contains lk = false ∧ ¬(lk = "ip_address") ∧ ¬(lk = "device_id") := by
  simp only [PHONE_LIKE_KEYS, List.mem_cons, List.not_mem_nil, or_false] at h
  rcases h with h | h | h | h | h <;> subst h <;> exact (by decide)

theorem is_phone_value_valid {lk n : String}
    (hsafe : SAFE_NUMERIC_ID_KEYS.contains lk = false)
    (hlike : PHONE_LIKE_KEYS.contains (asciiLower lk) = true)
    (hv : validPhoneB n = true) : is_phone_value lk n = true := by
  obtain ⟨hl, hd, hp⟩ := validPhone_spec hv
  have hm : phoneHere none (n.data ++ []) = some (n.data, n.data, []) :=
    phoneHere_valid rfl hl hd hp rfl
  rw [List.append_nil] at hm
  have hsearch : (searchGo phoneHere none n.data).isSome = true := by
    rw [searchGo_of_match hm]
    rfl
  have hsafe2 : lk ∉ SAFE_NUMERIC_ID_KEYS := by simpa using hsafe
  have hlike2 : asciiLower lk ∈ PHONE_LIKE_KEYS := by simpa using hlike
  simp [is_phone_value, hsafe2, hlike2, hsearch]

theorem contains_email_digits {n : String} (hd : ∀ c ∈ n.data, isDig c = true) :
    contains_email n = false := by
  have h0 : searchGo emailHere none n.data = none :=
    searchGo_none_of_allFail n.data none fun prev2 suf hsuf => by
      obtain ⟨pre, hpre⟩ := hsuf
      refine emailHere_allClass (fun c hc => ?_) prev2
      exact isEmailLocal_of_isDig (hd c (by rw [← hpre]; exact List.mem_append_right pre hc))
  simp [contains_email, h0]

theorem classStep_phoneField {key n : String} (st : DetSt)
    (hpv : is_phone_value (asciiLower key) n = true) :
    classStep (key, Value.vstr n) st =
      ⟨true, st.sigs, updateVal st.red key (Value.vstr (mask_phone n))⟩ := by
  simp [classStep, svalOfA, hpv]

theorem comboStep_phoneField {key n : String} (red : Record)
    (hk : asciiLower key ∈ PHONE_LIKE_KEYS) (hd : ∀ c ∈ n.data, isDig c = true) :
    comboStep (key, Value.vstr n) red = red := by
  obtain ⟨_, _, hnk, hfn, hln, hak, hip, hdev⟩ := phoneKey_facts hk
  have hem := contains_email_digits hd
  have hnk2 : asciiLower key ∉ NAME_KEYS := by simpa using hnk
  have hak2 : asciiLower key ∉ ADDRESS_KEYS := by simpa using hak
  simp [comboStep, svalOfB, hnk2, hfn, hln, hem, hak2, hip, hdev]

theorem not_at_of_isDig {c : Char} (h : isDig c = true) : ¬(c = '@') := by
  intro he
  subst he
  revert h
  decide

theorem not_at_of_isSepCh {c : Char} (h : isSepCh c = true) : ¬(c = '@') := by
  intro he
  subst he
  revert h
  decide

theorem ctxSafe_spec {s : String} (h : ctxSafeB s = true) :
    ∀ x ∈ s.data, CtxSafe x := by
  simp only [ctxSafeB, List.all_eq_true, Bool.and_eq_true, Bool.not_eq_true',
    decide_eq_false_iff_not] at h
  intro x hx
  obtain ⟨⟨h1, h2⟩, h3⟩ := h x hx
  exact ⟨h1, h2, h3⟩

theorem ctxSafe_PSafe {c : Char} (h : CtxSafe c) : PSafe c := ⟨h.1, h.2.1⟩

theorem phonePre_spec : ∀ {l : List Char}, phonePreL l = true → PhonePre l := by
  intro l h
  unfold PhonePre
  rcases l with _ | ⟨x, l⟩
  · exact Or.inl rfl
  rcases l with _ | ⟨y, l⟩
  · simp [phonePreL] at h
  rcases l with _ | ⟨z, l⟩
  · simp only [phonePreL, Bool.and_eq_true, decide_eq_true_eq] at h
    exact Or.inr (Or.inl (by rw [h.1, h.2]))
  rcases l with _ | ⟨w, l⟩
  · simp only [phonePreL, Bool.or_eq_true, Bool.and_eq_true, decide_eq_true_eq] at h
    rcases h with ⟨⟨h1, h2⟩, h3⟩ | ⟨⟨h1, h2⟩, h3⟩
    · exact Or.inr (Or.inr (Or.inr ⟨z, h3, Or.inl (by rw [h1, h2])⟩))
    · exact Or.inr (Or.inr (Or.inl (by rw [h1, h2, h3])))
  rcases l with _ | ⟨u, l⟩
  · simp only [phonePreL, Bool.and_eq_true, decide_eq_true_eq] at h
    obtain ⟨⟨⟨h1, h2⟩, h3⟩, h4⟩ := h
    exact Or.inr (Or.inr (Or.inr ⟨w, h4, Or.inr (by rw [h1, h2, h3])⟩))
  · simp [phonePreL] at h

theorem phonePre_len {p : List Char} (h : PhonePre p) : p.length ≤ 4 := by
  rcases h with h | h | h | ⟨s, _, h | h⟩ <;> subst h <;> simp

theorem phonePre_noAt {p : List Char} (h : PhonePre p) : ∀ c ∈ p, ¬(c = '@') := by
  rcases h with h | h | h | ⟨s, hs, h | h⟩
  · subst h
    intro c hc
    simp at hc
  · subst h
    intro c hc
    simp only [List.mem_cons, List.not_mem_nil, or_false] at hc
    rcases hc with h | h <;> subst h <;> decide
  · subst h
    intro c hc
    simp only [List.mem_cons, List.not_mem_nil, or_false] at hc
    rcases hc with h | h | h <;> subst h <;> decide
  · subst h
    intro c hc
    simp only [List.mem_cons, List.not_mem_nil, or_false] at hc
    rcases hc with h | h | h
    · subst h; decide
    · subst h; decide
    · subst h; exact not_at_of_isSepCh hs
  · subst h
    intro c hc
    simp only [List.mem_cons, List.not_mem_nil, or_false] at hc
    rcases hc with h | h | h | h
    · subst h; decide
    · subst h; decide
    · subst h; decide
    · subst h; exact not_at_of_isSepCh hs

/-! ## Matchers that need an `'@'` somewhere -/

theorem upiHere_noAt {cs : List Char} (h : ∀ c ∈ cs, ¬(c = '@'))
    (prev : Option Char) : upiHere prev cs = none := by
  rcases hd : cs.dropWhile isUpiName with _ | ⟨c, r⟩
  · simp only [upiHere, hd]
    split <;> rfl
  · have hc : c ∈ cs := mem_of_mem_dropWhile isUpiName cs c (by simp [hd])
    have hcne : ¬(c = '@') := h c hc
    simp only [upiHere, hd]
    split
    · simp [hcne]
    · rfl

theorem emailHere_noAt {cs : List Char} (h : ∀ c ∈ cs, ¬(c = '@'))
    (prev : Option Char) : emailHere prev cs = none := by
  rcases hd : cs.dropWhile isEmailLocal with _ | ⟨c, r⟩
  · simp only [emailHere, hd]
    split <;> rfl
  · have hc : c ∈ cs := mem_of_mem_dropWhile isEmailLocal cs c (by simp [hd])
    have hcne : ¬(c = '@') := h c hc
    simp only [emailHere, hd]
    split
    · simp [hcne]
    · rfl

theorem searchUpi_noAt {cs : List Char} (h : ∀ c ∈ cs, ¬(c = '@'))
    (prev : Option Char) : searchGo upiHere prev cs = none := by
  apply searchGo_none_of_allFail
  intro prev2 suf hsuf
  obtain ⟨pre, hpre⟩ := hsuf
  exact upiHere_noAt
    (fun c hc => h c (by rw [← hpre]; exact List.mem_append_right pre hc)) prev2

theorem searchEmail_noAt {cs : List Char} (h : ∀ c ∈ cs, ¬(c = '@'))
    (prev : Option Char) : searchGo emailHere prev cs = none := by
  apply searchGo_none_of_allFail
  intro prev2 suf hsuf
  obtain ⟨pre, hpre⟩ := hsuf
  exact emailHere_noAt
    (fun c hc => h c (by rw [← hpre]; exact List.mem_append_right pre hc)) prev2

theorem contains_email_noAt {v : String} (h : ∀ c ∈ v.data, ¬(c = '@')) :
    contains_email v = false := by
  simp [contains_email, searchEmail_noAt h none]

/-- Search fails outright on a string at whose every position the
matcher dies on the head character. -/
theorem searchGo_none_headFail {m : Option Char → List Char → Option α} {P : Char → Prop}
    (hm : ∀ (prev : Option Char) (c : Char) (cs2 : List Char), P c → m prev (c :: cs2) = none)
    (hnil : ∀ prev : Option Char, m prev [] = none) :
    ∀ (cs : List Char) (prev : Option Char), (∀ x ∈ cs, P x) →
      searchGo m prev cs = none := by
  intro cs
  induction cs with
  | nil => intro prev _; simpa [searchGo] using hnil prev
  | cons c rest ih =>
    intro prev h
    rw [searchGo, hm prev c rest (h c (by simp)), orElseO_none_left]
    exact ih (some c) fun x hx => h x (by simp [hx])

/-! ## Positions with at most two digits before a digit-free tail -/

theorem headDigit_false_of_nodig {l : List Char} (h : ∀ x ∈ l, isDig x = false) :
    headDigit l = false := by
  cases l with
  | nil => rfl
  | cons x t => simpa [headDigit] using h x (by simp)

theorem phoneCore_nodig {rest : List Char} (hrest : ∀ x ∈ rest, isDig x = false) :
    phoneCore rest = none := by
  cases rest with
  | nil => rfl
  | cons r0 r =>
    have h0 : isPh r0 = false := isPh_false_of_not_isDig (hrest r0 (by simp))
    simp [phoneCore, h0]

theorem phoneHere_d2_safeRest {rest : List Char} (hrest : ∀ x ∈ rest, isDig x = false)
    (prev : Option Char) (a b : Char) : phoneHere prev (a :: b :: rest) = none := by
  cases rest with
  | nil => exact phoneHere_len2 prev a b
  | cons r0 r' =>
    rcases hp : prevDigit prev with _ | _
    · have hr0 : isDig r0 = false := hrest r0 (by simp)
      have hr' : ∀ x ∈ r', isDig x = false := fun x hx => hrest x (by simp [hx])
      have hph0 : isPh r0 = false := isPh_false_of_not_isDig hr0
      have hne1 : ¬(r0 = '1') := by
        intro he
        subst he
        revert hr0
        decide
      have hcore' : phoneCore r' = none := phoneCore_nodig hr'
      have hcoreR : phoneCore (r0 :: r') = none := by simp [phoneCore, hph0]
      have htake9 : ∀ x : Char, takeDigits 9 (x :: r0 :: r') = none := by
        intro x
        rcases hx : isDig x with _ | _
        · simp [takeDigits, hx]
        · simp [takeDigits, hx, hr0]
      have hcoreAB : phoneCore (a :: b :: r0 :: r') = none := by
        rcases hx : isPh a with _ | _
        · simp [phoneCore, hx]
        · simp [phoneCore, hx, htake9 b]
      have hsepAll : ∀ preL : List Char, phoneSepTail preL (r0 :: r') = none := by
        intro preL
        rcases hs : isSepCh r0 with _ | _
        · simp [phoneSepTail, hs]
        · simp [phoneSepTail, hs, phoneWithPre, hcore']
      by_cases ha : a = '+'
      · subst ha
        by_cases hb : b = '9'
        · subst hb
          simp [phoneHere, hp, stripChar, strip91, phoneWithPre, orElseO, hne1, hcoreAB]
        · simp [phoneHere, hp, stripChar, strip91, phoneWithPre, orElseO, hb, hcoreAB]
      · by_cases ha9 : a = '9'
        · subst ha9
          by_cases hb1 : b = '1'
          · subst hb1
            simp [phoneHere, hp, stripChar, strip91, phoneWithPre, orElseO, ha,
              hsepAll, hcoreR, hcoreAB]
          · simp [phoneHere, hp, stripChar, strip91, phoneWithPre, orElseO, ha, hb1,
              hcoreAB]
        · simp [phoneHere, hp, stripChar, strip91, phoneWithPre, orElseO, ha, ha9,
            hcoreAB]
    · exact phoneHere_prevDigit hp

theorem aadharHere_nonDigitHead {c : Char} (h : isDig c = false)
    (prev : Option Char) (rest : List Char) : aadharHere prev (c :: rest) = none := by
  rcases hp : prevDigit prev with _ | _
  · have h4 : takeDigits 4 (c :: rest) = none := by
      simpa using takeDigits_short [] 4 (c :: rest) (by simp) (by simp)
        (by simp [headDigit, h])
    simp [aadharHere, hp, h4]
  · exact aadharHere_prevDigit hp

theorem aadharHere_nodigP : ∀ (prev : Option Char) (c : Char) (cs2 : List Char),
    isDig c = false → aadharHere prev (c :: cs2) = none :=
  fun prev c cs2 hc => aadharHere_nonDigitHead hc prev cs2

theorem takeDigits_four_safeRest {rest : List Char} (hhead : headDigit rest = false)
    (a b : Char) : takeDigits 4 (a :: b :: rest) = none := by
  rcases hda : isDig a with _ | _
  · simpa using takeDigits_short [] 4 (a :: b :: rest) (by simp) (by simp)
      (by simp [headDigit, hda])
  · rcases hdb : isDig b with _ | _
    · simpa using takeDigits_short [a] 4 (b :: rest) (by simp [hda]) (by simp)
        (by simp [headDigit, hdb])
    · simpa using takeDigits_short [a, b] 4 rest (by simp [hda, hdb]) (by simp) hhead

theorem aadharHere_d2_safeRest {rest : List Char} (hrest : ∀ x ∈ rest, isDig x = false)
    (prev : Option Char) (a b : Char) : aadharHere prev (a :: b :: rest) = none := by
  rcases hp : prevDigit prev with _ | _
  · have h4 : takeDigits 4 (a :: b :: rest) = none :=
      takeDigits_four_safeRest (headDigit_false_of_nodig hrest) a b
    simp [aadharHere, hp, h4]
  · exact aadharHere_prevDigit hp

theorem passportHere_prevAlnum {prev : Option Char} (h : prevAlnum prev = true)
    (cs : List Char) : passportHere prev cs = none := by
  simp [passportHere, h]

theorem takeDigits_seven_X3 (a b : Char) (rest : List Char) :
    takeDigits 7 (a :: b :: 'X' :: rest) = none := by
  rcases hda : isDig a with _ | _
  · simpa using takeDigits_short [] 7 (a :: b :: 'X' :: rest) (by simp) (by simp)
      (by simp [headDigit, hda])
  · rcases hdb : isDig b with _ | _
    · simpa using takeDigits_short [a] 7 (b :: 'X' :: rest) (by simp [hda]) (by simp)
        (by simp [headDigit, hdb])
    · simpa using takeDigits_short [a, b] 7 ('X' :: rest) (by simp [hda, hdb]) (by simp)
        (by simp [headDigit, isDig_X])

theorem takeDigits_seven_X2 (b : Char) (rest : List Char) :
    takeDigits 7 (b :: 'X' :: rest) = none := by
  rcases hdb : isDig b with _ | _
  · simpa using takeDigits_short [] 7 (b :: 'X' :: rest) (by simp) (by simp)
      (by simp [headDigit, hdb])
  · simpa using takeDigits_short [b] 7 ('X' :: rest) (by simp [hdb]) (by simp)
      (by simp [headDigit, isDig_X])

/-- The passport matcher dies at a position whose tail is a digit-free
run followed by the redacted shape `x y 'X' ...`: the seven digits
would have to start within two characters of the letter, where at most
two digits are available. -/
theorem passportHere_ctxPos {tA : List Char} (htA : ∀ x ∈ tA, isDig x = false)
    (prev : Option Char) (c x y : Char) (rest2 : List Char) :
    passportHere prev (c :: (tA ++ (x :: y :: 'X' :: rest2))) = none := by
  rcases hp : prevAlnum prev with _ | _
  · rcases hL : isPassLetter c with _ | _
    · exact passportHere_nonLetter hL prev _
    · cases tA with
      | nil =>
        by_cases hx : x = ' '
        · subst hx
          have ht : takeDigits 7 (y :: 'X' :: rest2) = none := takeDigits_seven_X2 y rest2
          simp [passportHere, hp, hL, passportTail, ht]
        · have ht : takeDigits 7 (x :: y :: 'X' :: rest2) = none :=
            takeDigits_seven_X3 x y rest2
          simp [passportHere, hp, hL, passportTail, hx, ht]
      | cons t0 tA' =>
        have h0 : isDig t0 = false := htA t0 (by simp)
        cases tA' with
        | nil =>
          by_cases ht0 : t0 = ' '
          · subst ht0
            have ht : takeDigits 7 (x :: y :: 'X' :: rest2) = none :=
              takeDigits_seven_X3 x y rest2
            simp [passportHere, hp, hL, passportTail, ht]
          · have ht : takeDigits 7 (t0 :: (x :: y :: 'X' :: rest2)) = none := by
              simpa using takeDigits_short [] 7 (t0 :: (x :: y :: 'X' :: rest2)) (by simp)
                (by simp) (by simp [headDigit, h0])
            simp [passportHere, hp, hL, passportTail, ht0, ht]
        | cons t1 tA2 =>
          have h1 : isDig t1 = false := htA t1 (by simp)
          by_cases ht0 : t0 = ' '
          · subst ht0
            have ht : takeDigits 7 (t1 :: (tA2 ++ (x :: y :: 'X' :: rest2))) = none := by
              simpa using takeDigits_short [] 7
                (t1 :: (tA2 ++ (x :: y :: 'X' :: rest2))) (by simp) (by simp)
                (by simp [headDigit, h1])
            simp [passportHere, hp, hL, passportTail, ht]
          · have ht : takeDigits 7 (t0 :: (t1 :: (tA2 ++ (x :: y :: 'X' :: rest2)))) =
                none := by
              simpa using takeDigits_short [] 7
                (t0 :: (t1 :: (tA2 ++ (x :: y :: 'X' :: rest2)))) (by simp) (by simp)
                (by simp [headDigit, h0])
            simp [passportHere, hp, hL, passportTail, ht0, ht]
  · exact passportHere_prevAlnum hp _

/-- Scanning for a passport walks over a digit-free run that is
followed by the redacted shape. -/
theorem searchPassport_skipA : ∀ (A : List Char), (∀ x ∈ A, isDig x = false) →
    ∀ (x y : Char) (rest2 : List Char) (prev : Option Char),
      searchGo passportHere prev (A ++ (x :: y :: 'X' :: rest2)) =
        searchGo passportHere (prevEnd A prev) (x :: y :: 'X' :: rest2) := by
  intro A
  induction A with
  | nil => intro _ x y rest2 prev; simp [prevEnd_nil]
  | cons c A' ih =>
    intro hA x y rest2 prev
    have hc : passportHere prev (c :: (A' ++ (x :: y :: 'X' :: rest2))) = none :=
      passportHere_ctxPos (fun t ht => hA t (by simp [ht])) prev c x y rest2
    rw [List.cons_append, searchGo, hc, orElseO_none_left,
      ih (fun t ht => hA t (by simp [ht])) x y rest2 (some c), prevEnd_cons]

/-- The passport matcher dies at every position of a digit-free string. -/
theorem passportHere_nodigTail {rest : List Char} (hrest : ∀ x ∈ rest, isDig x = false)
    (prev : Option Char) (c : Char) : passportHere prev (c :: rest) = none := by
  rcases hp : prevAlnum prev with _ | _
  · rcases hL : isPassLetter c with _ | _
    · exact passportHere_nonLetter hL prev rest
    · cases rest with
      | nil => simp [passportHere, hp, hL]
      | cons r0 r' =>
        have h0 : isDig r0 = false := hrest r0 (by simp)
        have ht0 : takeDigits 7 (r0 :: r') = none := by
          simpa using takeDigits_short [] 7 (r0 :: r') (by simp) (by simp)
            (by simp [headDigit, h0])
        by_cases hr0 : r0 = ' '
        · subst hr0
          have ht1 : takeDigits 7 r' = none := by
            cases r' with
            | nil => rfl
            | cons r1 r2 =>
              have h1 : isDig r1 = false := hrest r1 (by simp)
              simpa using takeDigits_short [] 7 (r1 :: r2) (by simp) (by simp)
                (by simp [headDigit, h1])
          simp [passportHere, hp, hL, passportTail, ht1]
        · simp [passportHere, hp, hL, passportTail, hr0, ht0]
  · exact passportHere_prevAlnum hp _

theorem searchPassport_nodig : ∀ (B : List Char) (prev : Option Char),
    (∀ x ∈ B, isDig x = false) → searchGo passportHere prev B = none := by
  intro B
  induction B with
  | nil => intro prev _; simpa [searchGo] using passportHere_nil prev
  | cons c B' ih =>
    intro prev h
    rw [searchGo, passportHere_nodigTail (fun x hx => h x (by simp [hx])) prev c,
      orElseO_none_left]
    exact ih (some c) fun x hx => h x (by simp [hx])

theorem ipHere_prevWord {prev : Option Char} (h : prevWord prev = true)
    (cs : List Char) : ipHere prev cs = none := by
  simp [ipHere, h]

theorem ipHere_nil (prev : Option Char) : ipHere prev [] = none := by
  rcases hp : prevWord prev with _ | _ <;> simp [ipHere, hp, octetRun, octLen]

theorem ipHere_nonDigitHead {c : Char} (h : isDig c = false)
    (prev : Option Char) (rest : List Char) : ipHere prev (c :: rest) = none := by
  rcases hp : prevWord prev with _ | _
  · simp [ipHere, hp, octetRun, octLen, List.takeWhile_cons, h]
  · exact ipHere_prevWord hp _

theorem ipHere_nodigP : ∀ (prev : Option Char) (c : Char) (cs2 : List Char),
    isDig c = false → ipHere prev (c :: cs2) = none :=
  fun prev c cs2 hc => ipHere_nonDigitHead hc prev cs2

/-- The IP matcher dies at the start of the redacted phone form: the
first octet run `d0 d1` is followed by `'X'`, not `'.'`. -/
theorem ipHere_ddX {a b : Char} (hda : isDig a = true) (hdb : isDig b = true)
    (prev : Option Char) (rest : List Char) : ipHere prev (a :: b :: 'X' :: rest) = none := by
  rcases hp : prevWord prev with _ | _
  · have hne : ¬(('X' : Char) = '.') := by decide
    simp [ipHere, hp, octetRun, octLen, List.takeWhile_cons, List.dropWhile_cons,
      hda, hdb, isDig_X, hne]
  · exact ipHere_prevWord hp _

/-! ## No pattern matches the redacted phone form in inert context -/

theorem searchPhone_maskCtx {A B : List Char} {d0 d1 d8 d9 : Char}
    (hA : ∀ x ∈ A, PSafe x) (hB : ∀ x ∈ B, PSafe x)
    (hd8 : isDig d8 = true) :
    searchGo phoneHere none
      (A ++ (d0 :: d1 :: 'X' :: 'X' :: 'X' :: 'X' :: 'X' :: 'X' :: d8 :: d9 :: B)) = none := by
  have hBdig : ∀ x ∈ B, isDig x = false := fun x hx => (hB x hx).1
  rw [searchGo_skip phoneHere_PSafe A _ none hA]
  have h0 : phoneHere (prevEnd A none)
      (d0 :: d1 :: 'X' :: 'X' :: 'X' :: 'X' :: 'X' :: 'X' :: d8 :: d9 :: B) = none :=
    phoneHere_X3 _ d0 d1 _
  have h8 : phoneHere (some 'X') (d8 :: d9 :: B) = none :=
    phoneHere_d2_safeRest hBdig (some 'X') d8 d9
  have h9 : phoneHere (some d8) (d9 :: B) = none :=
    phoneHere_prevDigit (by simp [prevDigit, hd8])
  have hBs : searchGo phoneHere (some d9) B = none :=
    searchGo_none_headFail phoneHere_PSafe phoneHere_nil B (some d9) hB
  simp only [searchGo, h0, phoneHere_X2, phoneHere_X1, h8, h9, orElseO_none_left, hBs]

theorem searchAadhar_maskCtx {A B : List Char} {d0 d1 d8 d9 : Char}
    (hA : ∀ x ∈ A, isDig x = false) (hB : ∀ x ∈ B, isDig x = false)
    (hd8 : isDig d8 = true) :
    searchGo aadharHere none
      (A ++ (d0 :: d1 :: 'X' :: 'X' :: 'X' :: 'X' :: 'X' :: 'X' :: d8 :: d9 :: B)) = none := by
  rw [searchGo_skip aadharHere_nodigP A _ none hA]
  have h8 : aadharHere (some 'X') (d8 :: d9 :: B) = none :=
    aadharHere_d2_safeRest hB (some 'X') d8 d9
  have h9 : aadharHere (some d8) (d9 :: B) = none :=
    aadharHere_prevDigit (by simp [prevDigit, hd8])
  have hBs : searchGo aadharHere (some d9) B = none :=
    searchGo_none_headFail aadharHere_nodigP aadharHere_nil B (some d9) hB
  simp only [searchGo, aadharHere_X3, aadharHere_X2, aadharHere_X1, h8, h9,
    orElseO_none_left, hBs]

theorem searchPassport_maskCtx {A B : List Char} {d0 d1 d8 d9 : Char}
    (hA : ∀ x ∈ A, isDig x = false) (hB : ∀ x ∈ B, isDig x = false)
    (hd0 : isDig d0 = true) (hd1 : isDig d1 = true) (hd8 : isDig d8 = true) :
    searchGo passportHere none
      (A ++ (d0 :: d1 :: 'X' :: 'X' :: 'X' :: 'X' :: 'X' :: 'X' :: d8 :: d9 :: B)) = none := by
  rw [searchPassport_skipA A hA d0 d1 ('X' :: 'X' :: 'X' :: 'X' :: 'X' :: d8 :: d9 :: B) none]
  have hp0 : prevAlnum (some d0) = true := by simp [prevAlnum, isAlnum_of_isDig hd0]
  have hp1 : prevAlnum (some d1) = true := by simp [prevAlnum, isAlnum_of_isDig hd1]
  have hp8 : prevAlnum (some d8) = true := by simp [prevAlnum, isAlnum_of_isDig hd8]
  have hpX : prevAlnum (some 'X') = true := by decide
  have hBs : searchGo passportHere (some d9) B = none :=
    searchPassport_nodig B (some d9) hB
  simp only [searchGo, passportHere_digitHead hd0, passportHere_prevAlnum hp0,
    passportHere_prevAlnum hp1, passportHere_prevAlnum hpX, passportHere_prevAlnum hp8,
    orElseO_none_left, hBs]

theorem searchIp_maskCtx {A B : List Char} {d0 d1 d8 d9 : Char}
    (hA : ∀ x ∈ A, isDig x = false) (hB : ∀ x ∈ B, isDig x = false)
    (hd0 : isDig d0 = true) (hd1 : isDig d1 = true) (hd8 : isDig d8 = true) :
    searchGo ipHere none
      (A ++ (d0 :: d1 :: 'X' :: 'X' :: 'X' :: 'X' :: 'X' :: 'X' :: d8 :: d9 :: B)) = none := by
  rw [searchGo_skip ipHere_nodigP A _ none hA]
  have h0 : ipHere (prevEnd A none)
      (d0 :: d1 :: 'X' :: 'X' :: 'X' :: 'X' :: 'X' :: 'X' :: d8 :: d9 :: B) = none :=
    ipHere_ddX hd0 hd1 _ _
  have hw0 : prevWord (some d0) = true := by simp [prevWord, isWord_of_isDig hd0]
  have hw1 : prevWord (some d1) = true := by simp [prevWord, isWord_of_isDig hd1]
  have hw8 : prevWord (some d8) = true := by simp [prevWord, isWord_of_isDig hd8]
  have hwX : prevWord (some 'X') = true := by decide
  have hBs : searchGo ipHere (some d9) B = none :=
    searchGo_none_headFail ipHere_nodigP ipHere_nil B (some d9) hB
  simp only [searchGo, h0, ipHere_prevWord hw0, ipHere_prevWord hw1, ipHere_prevWord hwX,
    ipHere_prevWord hw8, orElseO_none_left, hBs]

/-- None of the six sweep patterns matches the redacted phone form
embedded in inert context. -/
theorem noMatches_maskCtx {s : String} {A B : List Char} {d0 d1 d8 d9 : Char}
    (hs : s.data = A ++ (d0 :: d1 :: 'X' :: 'X' :: 'X' :: 'X' :: 'X' :: 'X' :: d8 :: d9 :: B))
    (hA : ∀ x ∈ A, CtxSafe x) (hB : ∀ x ∈ B, CtxSafe x)
    (hd0 : isDig d0 = true) (hd1 : isDig d1 = true) (hd8 : isDig d8 = true)
    (hd9 : isDig d9 = true) : noMatchesB s = true := by
  have hAP : ∀ x ∈ A, PSafe x := fun x hx => ctxSafe_PSafe (hA x hx)
  have hBP : ∀ x ∈ B, PSafe x := fun x hx => ctxSafe_PSafe (hB x hx)
  have hAd : ∀ x ∈ A, isDig x = false := fun x hx => (hA x hx).1
  have hBd : ∀ x ∈ B, isDig x = false := fun x hx => (hB x hx).1
  have hnoAt : ∀ c ∈ A ++ (d0 :: d1 :: 'X' :: 'X' :: 'X' :: 'X' :: 'X' :: 'X' ::
      d8 :: d9 :: B), ¬(c = '@') := by
    intro c hc
    rcases List.mem_append.mp hc with h | h
    · exact (hA c h).2.2
    · simp only [List.mem_cons] at h
      rcases h with h | h | h | h | h | h | h | h | h | h | h
      · subst h; exact not_at_of_isDig hd0
      · subst h; exact not_at_of_isDig hd1
      · subst h; decide
      · subst h; decide
      · subst h; decide
      · subst h; decide
      · subst h; decide
      · subst h; decide
      · subst h; exact not_at_of_isDig hd8
      · subst h; exact not_at_of_isDig hd9
      · exact (hB c h).2.2
  unfold noMatchesB
  rw [hs]
  rw [searchPhone_maskCtx hAP hBP hd8, searchAadhar_maskCtx hAd hBd hd8,
    searchPassport_maskCtx hAd hBd hd0 hd1 hd8, searchIp_maskCtx hAd hBd hd0 hd1 hd8,
    searchUpi_noAt hnoAt none, searchEmail_noAt hnoAt none]
  rfl

/-- The redacted phone form in inert context is a fixed point of the
standalone sweep. -/
theorem sweepStr_maskCtx {a n b : String} (ha : ctxSafeB a = true)
    (hb : ctxSafeB b = true) (hv : validPhoneB n = true) :
    sweepStr (a ++ phoneMaskOf n ++ b) = a ++ phoneMaskOf n ++ b := by
  obtain ⟨hl, hd, _⟩ := validPhone_spec hv
  obtain ⟨d0, d1, d2, d3, d4, d5, d6, d7, d8, d9, he⟩ := exists_ten n.data hl
  have hd0 : isDig d0 = true := hd d0 (by rw [he]; simp)
  have hd1 : isDig d1 = true := hd d1 (by rw [he]; simp)
  have hd8 : isDig d8 = true := hd d8 (by rw [he]; simp)
  have hd9 : isDig d9 = true := hd d9 (by rw [he]; simp)
  have hmask : phoneMaskOf n = String.mk [d0, d1, 'X', 'X', 'X', 'X', 'X', 'X', d8, d9] := by
    unfold phoneMaskOf
    rw [he]
    rfl
  apply sweepStr_id
  refine noMatches_maskCtx ?_ (ctxSafe_spec ha) (ctxSafe_spec hb) hd0 hd1 hd8 hd9
  rw [hmask]
  simp [data_append, data_mk, List.append_assoc]

/-! ## The phone matcher on every optional-prefix form -/

theorem phoneCore_valid {n rest : List Char} (hlen : n.length = 10)
    (hdig : ∀ c ∈ n, isDig c = true) (hph : isPh (n.headD 'x') = true)
    (hrest : headDigit rest = false) :
    phoneCore (n ++ rest) = some (n, rest) := by
  rcases n with _ | ⟨d0, t⟩
  · simp at hlen
  have hph0 : isPh d0 = true := by simpa using hph
  have ht : t.length = 9 := by simp at hlen; omega
  have htake : takeDigits 9 (t ++ rest) = some (t, rest) := by
    have h := takeDigits_exact t rest (fun c hc => hdig c (List.mem_cons_of_mem d0 hc))
    rwa [ht] at h
  simp [phoneCore, hph0, htake, hrest]

/-- At any admissible optional prefix followed by a valid ten-digit
core and a non-digit, the phone matcher consumes prefix and core,
capturing the core.  The backtracking order makes the consumed span the
longest admissible one. -/
theorem phoneHere_validPre {prev : Option Char} {p n rest : List Char}
    (hprev : prevDigit prev = false) (hp : PhonePre p) (hlen : n.length = 10)
    (hdig : ∀ c ∈ n, isDig c = true) (hph : isPh (n.headD 'x') = true)
    (hrest : headDigit rest = false) :
    phoneHere prev (p ++ (n ++ rest)) = some (p ++ n, n, rest) := by
  have hcore : phoneCore (n ++ rest) = some (n, rest) := phoneCore_valid hlen hdig hph hrest
  obtain ⟨n0, t, hn⟩ : ∃ n0 t, n = n0 :: t := by
    rcases n with _ | ⟨n0, t⟩
    · simp at hlen
    · exact ⟨n0, t, rfl⟩
  have hn0 : isDig n0 = true := hdig n0 (by rw [hn]; simp)
  have hsep0 : isSepCh n0 = false := isSepCh_false_of_isDig hn0
  rcases hp with hp | hp | hp | ⟨s, hs, hp | hp⟩
  · subst hp
    simpa using phoneHere_valid hprev hlen hdig hph hrest
  · subst hp
    rw [hn] at hcore ⊢
    simp only [List.cons_append] at hcore
    simp [phoneHere, hprev, stripChar, strip91, phoneSepTail, phoneWithPre, orElseO,
      hsep0, hcore]
  · subst hp
    rw [hn] at hcore ⊢
    simp only [List.cons_append] at hcore
    simp [phoneHere, hprev, stripChar, strip91, phoneSepTail, phoneWithPre, orElseO,
      hsep0, hcore]
  · subst hp
    rw [hn] at hcore ⊢
    simp only [List.cons_append] at hcore
    simp [phoneHere, hprev, stripChar, strip91, phoneSepTail, phoneWithPre, orElseO,
      hs, hcore]
  · subst hp
    rw [hn] at hcore ⊢
    simp only [List.cons_append] at hcore
    simp [phoneHere, hprev, stripChar, strip91, phoneSepTail, phoneWithPre, orElseO,
      hs, hcore]

theorem searchPhone_ctx {A p n B : List Char} (hA : ∀ x ∈ A, PSafe x) (hp : PhonePre p)
    (hlen : n.length = 10) (hdig : ∀ c ∈ n, isDig c = true)
    (hph : isPh (n.headD 'x') = true) (hBhead : headDigit B = false) :
    searchGo phoneHere none (A ++ (p ++ (n ++ B))) = some (p ++ n, n, B) := by
  rw [searchGo_skip phoneHere_PSafe A _ none hA]
  exact searchGo_of_match
    (phoneHere_validPre (prevDigit_prevEnd_safe rfl hA) hp hlen hdig hph hBhead)

/-- `mask_phone` on one prefixed occurrence in inert context: the whole
match (prefix included) is replaced by the mask of the ten captured
digits; the context is preserved. -/
theorem mask_phone_ctx {a p n b : String} (ha : ctxSafeB a = true)
    (hp : phonePreB p = true) (hv : validPhoneB n = true) (hb : ctxSafeB b = true) :
    mask_phone (a ++ p ++ n ++ b) = a ++ phoneMaskOf n ++ b := by
  have hsa : ∀ x ∈ a.data, PSafe x := fun x hx => ctxSafe_PSafe (ctxSafe_spec ha x hx)
  have hsb : ∀ x ∈ b.data, PSafe x := fun x hx => ctxSafe_PSafe (ctxSafe_spec hb x hx)
  have hpre : PhonePre p.data := phonePre_spec hp
  obtain ⟨hl, hd, hph⟩ := validPhone_spec hv
  have hbhead : headDigit b.data = false :=
    headDigit_false_of_nodig fun x hx => (ctxSafe_spec hb x hx).1
  have hdata : (a ++ p ++ n ++ b).data = a.data ++ (p.data ++ (n.data ++ b.data)) := by
    simp [data_append, List.append_assoc]
  have hprev1 : prevDigit (prevEnd a.data none) = false :=
    prevDigit_prevEnd_safe rfl fun x hx => hsa x hx
  have hm1 : phoneHere (prevEnd a.data none) (p.data ++ (n.data ++ b.data)) =
      some (p.data ++ n.data, n.data, b.data) :=
    phoneHere_validPre hprev1 hpre hl hd hph hbhead
  have hsearch : searchGo phoneHere none (a.data ++ (p.data ++ (n.data ++ b.data))) =
      some (p.data ++ n.data, n.data, b.data) := by
    rw [searchGo_skip phoneHere_PSafe a.data _ none hsa]
    exact searchGo_of_match hm1
  have hmaskgo : ∀ F : Nat, F = a.data.length + (p.data.length + (10 + b.data.length)) →
      subGo (phoneSubM (phoneMaskL n.data)) F none
          (a.data ++ (p.data ++ (n.data ++ b.data))) =
        a.data ++ (phoneMaskL n.data ++ b.data) := by
    intro F hF
    have hM1 : phoneSubM (phoneMaskL n.data) (prevEnd a.data none)
        (p.data ++ (n.data ++ b.data)) =
          some (phoneMaskL n.data, (p.data ++ n.data).getLastD 'X', b.data) := by
      unfold phoneSubM
      rw [hm1]
      rfl
    rw [subGo_skip (phoneSubM_PSafe _) a.data _ none F hsa (by omega)]
    rw [subGo_match hM1 (by omega)]
    have e3 := subGo_skip (phoneSubM_PSafe (phoneMaskL n.data)) b.data []
      (some ((p.data ++ n.data).getLastD 'X')) (F - a.data.length - 1) hsb (by omega)
    rw [List.append_nil] at e3
    rw [e3, subGo_nil (phoneSubM_nil _ _)]
    simp
  have hlenF : (a.data ++ (p.data ++ (n.data ++ b.data))).length =
      a.data.length + (p.data.length + (10 + b.data.length)) := by
    simp [hl]
  apply String.ext
  show (String.mk (maskPhoneL (a ++ p ++ n ++ b).data)).data = _
  rw [data_mk]
  unfold maskPhoneL
  rw [hdata]
  simp only [hsearch]
  rw [hmaskgo _ hlenF]
  simp [data_append, phoneMaskOf, data_mk, List.append_assoc]

/-! ## The pipeline on a phone-like field -/

theorem contains_email_phoneCtx {a p n b : String} (ha : ctxSafeB a = true)
    (hp : phonePreB p = true) (hv : validPhoneB n = true) (hb : ctxSafeB b = true) :
    contains_email (a ++ p ++ n ++ b) = false := by
  apply contains_email_noAt
  intro c hc
  rw [data_append, data_append, data_append] at hc
  rcases List.mem_append.mp hc with h1 | h4
  · rcases List.mem_append.mp h1 with h2 | h3
    · rcases List.mem_append.mp h2 with h5 | h6
      · exact (ctxSafe_spec ha c h5).2.2
      · exact phonePre_noAt (phonePre_spec hp) c h6
    · exact not_at_of_isDig ((validPhone_spec hv).2.1 c h3)
  · exact (ctxSafe_spec hb c h4).2.2

/-- Any searchable phone occurrence in the value, under a
non-deny-listed phone-like key, makes `is_phone_value` true through its
key-based branch. -/
theorem is_phone_value_of_search {lk v : String}
    (hsafe : SAFE_NUMERIC_ID_KEYS.contains lk = false)
    (hlike : PHONE_LIKE_KEYS.contains (asciiLower lk) = true)
    (hsearch : (searchGo phoneHere none v.data).isSome = true) :
    is_phone_value lk v = true := by
  have hsafe2 : lk ∉ SAFE_NUMERIC_ID_KEYS := by simpa using hsafe
  have hlike2 : asciiLower lk ∈ PHONE_LIKE_KEYS := by simpa using hlike
  simp [is_phone_value, hsafe2, hlike2, hsearch]

/-- The combinatorial pass leaves a phone-like-keyed field alone as
long as its value has no email occurrence. -/
theorem comboStep_phoneField_noAt {key v : String} (red : Record)
    (hk : asciiLower key ∈ PHONE_LIKE_KEYS) (hemail : contains_email v = false) :
    comboStep (key, Value.vstr v) red = red := by
  obtain ⟨_, _, hnk, hfn, hln, hak, hip, hdev⟩ := phoneKey_facts hk
  have hnk2 : asciiLower key ∉ NAME_KEYS := by simpa using hnk
  have hak2 : asciiLower key ∉ ADDRESS_KEYS := by simpa using hak
  simp [comboStep, svalOfB, hnk2, hfn, hln, hemail, hak2, hip, hdev]

/-- Any record with a phone-like-keyed string field whose value the
phone pattern matches anywhere is declared PII. -/
theorem detect_true_of_phoneField {record : Record} {key v : String}
    (hmem : (key, Value.vstr v) ∈ record)
    (hk : PHONE_LIKE_KEYS.contains (asciiLower key) = true)
    (hsearch : (searchGo phoneHere none v.data).isSome = true) :
    (detect_and_redact record).1 = true := by
  obtain ⟨pre, post, hrec⟩ := List.append_of_mem hmem
  subst hrec
  obtain ⟨hsafeK, hlik2, _, _, _, _, _, _⟩ := phoneKey_facts (by simpa using hk)
  have hpv : is_phone_value (asciiLower key) v = true :=
    is_phone_value_of_search hsafeK hlik2 hsearch
  have hstandalone : (detClassify (pre ++ (key, Value.vstr v) :: post)
      ⟨false, noSigs, pre ++ (key, Value.vstr v) :: post⟩).standalone = true := by
    rw [detClassify_append]
    show (detClassify post (classStep (key, Value.vstr v) _)).standalone = true
    apply detClassify_standalone_mono
    rw [classStep_phoneField _ hpv]
  have hverdict : scoreVerdict
      (detClassify (pre ++ (key, Value.vstr v) :: post)
        ⟨false, noSigs, pre ++ (key, Value.vstr v) :: post⟩).sigs
      (detClassify (pre ++ (key, Value.vstr v) :: post)
        ⟨false, noSigs, pre ++ (key, Value.vstr v) :: post⟩).standalone = true := by
    rw [hstandalone]
    exact scoreVerdict_true _
  exact hverdict

/-- C7: every record with a field whose key is phone-like
(case-insensitively) and whose value the phone pattern matches anywhere
is declared PII; and when the value is one occurrence in any
optional-prefix form the rule admits — bare, `91`- or `+91`-prefixed,
with or without a separator — embedded in context free of digits, `'+'`
and `'@'` (keys unique), the verdict is true and that field's output
preserves the context and shows only the first two and last two digits
of the ten-digit number unmasked. -/
theorem C7_phone_key :
    (∀ (record : Record) (key v : String), (key, Value.vstr v) ∈ record →
        PHONE_LIKE_KEYS.contains (asciiLower key) = true →
        (searchGo phoneHere none v.data).isSome = true →
        (detect_and_redact record).1 = true) ∧
    (∀ (record : Record) (key a p n b : String),
        (key, Value.vstr (a ++ p ++ n ++ b)) ∈ record →
        (record.map Prod.fst).Nodup →
        PHONE_LIKE_KEYS.contains (asciiLower key) = true →
        ctxSafeB a = true → phonePreB p = true → validPhoneB n = true →
        ctxSafeB b = true →
        (detect_and_redact record).1 = true ∧
          lookupVal (detect_and_redact record).2 key =
            some (Value.vstr (a ++ phoneMaskOf n ++ b))) := by
  constructor
  · intro record key v hmem hk hsearch
    exact detect_true_of_phoneField hmem hk hsearch
  · intro record key a p n b hmem hnodup hk ha hp hv hb
    obtain ⟨pre, post, hrec⟩ := List.append_of_mem hmem
    subst hrec
    obtain ⟨hl, hd, hph⟩ := validPhone_spec hv
    obtain ⟨hsafeK, hlik2, _, _, _, _, _, _⟩ := phoneKey_facts (by simpa using hk)
    have hsa : ∀ x ∈ a.data, PSafe x := fun x hx => ctxSafe_PSafe (ctxSafe_spec ha x hx)
    have hpre2 : PhonePre p.data := phonePre_spec hp
    have hbhead : headDigit b.data = false :=
      headDigit_false_of_nodig fun x hx => (ctxSafe_spec hb x hx).1
    have hdata : (a ++ p ++ n ++ b).data = a.data ++ (p.data ++ (n.data ++ b.data)) := by
      simp [data_append, List.append_assoc]
    have hsearchV : (searchGo phoneHere none (a ++ p ++ n ++ b).data).isSome = true := by
      rw [hdata, searchPhone_ctx hsa hpre2 hl hd hph hbhead]
      rfl
    have hpv : is_phone_value (asciiLower key) (a ++ p ++ n ++ b) = true :=
      is_phone_value_of_search hsafeK hlik2 hsearchV
    have hmaskEq : mask_phone (a ++ p ++ n ++ b) = a ++ phoneMaskOf n ++ b :=
      mask_phone_ctx ha hp hv hb
    have hemail : contains_email (a ++ p ++ n ++ b) = false :=
      contains_email_phoneCtx ha hp hv hb
    -- the keys around our field are all different from it
    rw [List.map_append, List.map_cons] at hnodup
    rw [List.nodup_append] at hnodup
    obtain ⟨_, hnd2, hdisj⟩ := hnodup
    rw [List.nodup_cons] at hnd2
    have hkeyNotPost : key ∉ post.map Prod.fst := hnd2.1
    have hkeyNotPre : key ∉ pre.map Prod.fst := fun hx => hdisj hx (by simp)
    have hpreKeys : ∀ kv ∈ pre, ¬(kv.1 = key) := fun kv hkv he =>
      hkeyNotPre (he ▸ List.mem_map_of_mem Prod.fst hkv)
    have hpostKeys : ∀ kv ∈ post, ¬(kv.1 = key) := fun kv hkv he =>
      hkeyNotPost (he ▸ List.mem_map_of_mem Prod.fst hkv)
    -- classification
    have hst1red : lookupVal (detClassify pre
        ⟨false, noSigs, pre ++ (key, Value.vstr (a ++ p ++ n ++ b)) :: post⟩).red key =
          some (Value.vstr (a ++ p ++ n ++ b)) := by
      rw [detClassify_lookup_other pre _ key hpreKeys]
      show lookupVal (pre ++ (key, Value.vstr (a ++ p ++ n ++ b)) :: post) key = _
      rw [lookup_append_notleft pre _ key hpreKeys]
      exact lookup_cons_self (key, Value.vstr (a ++ p ++ n ++ b)) post
    have hclass : detClassify (pre ++ (key, Value.vstr (a ++ p ++ n ++ b)) :: post)
        ⟨false, noSigs, pre ++ (key, Value.vstr (a ++ p ++ n ++ b)) :: post⟩ =
          detClassify post
            ⟨true,
              (detClassify pre ⟨false, noSigs,
                pre ++ (key, Value.vstr (a ++ p ++ n ++ b)) :: post⟩).sigs,
              updateVal
                (detClassify pre ⟨false, noSigs,
                  pre ++ (key, Value.vstr (a ++ p ++ n ++ b)) :: post⟩).red
                key (Value.vstr (mask_phone (a ++ p ++ n ++ b)))⟩ := by
      rw [detClassify_append]
      show detClassify post (classStep (key, Value.vstr (a ++ p ++ n ++ b)) _) = _
      rw [classStep_phoneField _ hpv]
    have hstandalone : (detClassify (pre ++ (key, Value.vstr (a ++ p ++ n ++ b)) :: post)
        ⟨false, noSigs, pre ++ (key, Value.vstr (a ++ p ++ n ++ b)) :: post⟩).standalone =
          true := by
      rw [hclass]
      exact detClassify_standalone_mono post _ rfl
    have hlookup2 : lookupVal (detClassify (pre ++ (key, Value.vstr (a ++ p ++ n ++ b)) :: post)
        ⟨false, noSigs, pre ++ (key, Value.vstr (a ++ p ++ n ++ b)) :: post⟩).red key =
          some (Value.vstr (mask_phone (a ++ p ++ n ++ b))) := by
      rw [hclass, detClassify_lookup_other post _ key hpostKeys]
      exact lookup_update_self _ key _ (Value.vstr (a ++ p ++ n ++ b)) hst1red
    have hverdict : scoreVerdict
        (detClassify (pre ++ (key, Value.vstr (a ++ p ++ n ++ b)) :: post)
          ⟨false, noSigs, pre ++ (key, Value.vstr (a ++ p ++ n ++ b)) :: post⟩).sigs
        (detClassify (pre ++ (key, Value.vstr (a ++ p ++ n ++ b)) :: post)
          ⟨false, noSigs, pre ++ (key, Value.vstr (a ++ p ++ n ++ b)) :: post⟩).standalone =
          true := by
      rw [hstandalone]
      exact scoreVerdict_true _
    have hcomboLookup : lookupVal
        (detCombo (pre ++ (key, Value.vstr (a ++ p ++ n ++ b)) :: post)
          (detClassify (pre ++ (key, Value.vstr (a ++ p ++ n ++ b)) :: post)
            ⟨false, noSigs, pre ++ (key, Value.vstr (a ++ p ++ n ++ b)) :: post⟩).red) key =
          some (Value.vstr (mask_phone (a ++ p ++ n ++ b))) := by
      rw [detCombo_append]
      show lookupVal
        (detCombo post (comboStep (key, Value.vstr (a ++ p ++ n ++ b)) _)) key = _
      rw [detCombo_lookup_other post _ key hpostKeys,
        comboStep_phoneField_noAt _ (by simpa using hk) hemail,
        detCombo_lookup_other pre _ key hpreKeys]
      exact hlookup2
    refine ⟨hverdict, ?_⟩
    simp only [detect_and_redact, hverdict, Bool.true_and, if_true]
    rw [lookup_sweepRec]
    by_cases hcond : (decide (0 < sigCount
        (detClassify (pre ++ (key, Value.vstr (a ++ p ++ n ++ b)) :: post)
          ⟨false, noSigs, pre ++ (key, Value.vstr (a ++ p ++ n ++ b)) :: post⟩).sigs)) =
        true
    · rw [if_pos hcond, hcomboLookup]
      simp [sweepVal, hmaskEq, sweepStr_maskCtx ha hb hv]
    · rw [if_neg hcond, hlookup2]
      simp [sweepVal, hmaskEq, sweepStr_maskCtx ha hb hv]

/-- Witness for C7: the verdict conjunct and the masking conjunct at a
record whose value embeds a `+91-`-prefixed phone number in text. -/
theorem C7_witness :
    (detect_and_redact [("contact", Value.vstr "call +91-9876543210 now")]).1 = true ∧
      lookupVal (detect_and_redact [("contact", Value.vstr "call +91-9876543210 now")]).2
          "contact" =
        some (Value.vstr ("call " ++ phoneMaskOf "9876543210" ++ " now")) :=
  ⟨C7_phone_key.1 [("contact", Value.vstr "call +91-9876543210 now")] "contact"
      "call +91-9876543210 now" (by decide) (by decide) (by decide),
    (C7_phone_key.2 [("contact", Value.vstr "call +91-9876543210 now")] "contact"
      "call " "+91-" "9876543210" " now" (by decide) (by decide) (by decide) (by decide)
      (by decide) (by decide) (by decide)).2⟩

end PiiDetector
